import Mathlib

/-!
Verification development for the MakerWorld → Shopee scraping/templating tool
(`app.py`).  The pure text-processing, schema-resolution, template-writing and
control-flow logic of the program is shallowly embedded on `List Char` strings
and explicit worksheet states, and the specification's claims about it are
proved or refuted below.

Modelling conventions:
* Python strings are `List Char`; ASCII semantics are used for the character
  classes (`\s`, `\w`) that the program's regexes rely on.
  `unicodedata.normalize("NFKC", ·)` is modelled as the identity, which it is
  on ASCII text.
* Worksheet cell values are `none` (empty cell) or a string/int `Val`.
* Regex operations are embedded as explicit scanners implementing the
  leftmost / non-overlapping semantics of `re.sub` / `re.search` for the
  concrete patterns appearing in the program.
-/

set_option maxHeartbeats 1000000

namespace MW

/-- Python `\s` whitespace characters (ASCII range). -/
def isWsChar (c : Char) : Bool :=
  c = ' ' || c = '\t' || c = '\n' || c = '\r' || c = Char.ofNat 11 || c = Char.ofNat 12

/-- Python `\w` word characters (ASCII range): letters, digits, underscore. -/
def isWordChar (c : Char) : Bool :=
  c.isAlphanum || c = '_'

/-- ASCII lower-casing, as done by `str.lower` on ASCII text. -/
def lowerChar (c : Char) : Char :=
  if 65 ≤ c.toNat ∧ c.toNat ≤ 90 then Char.ofNat (c.toNat + 32) else c

/-- One step of `re.sub(r"\s+", " ", s)`: the boolean records whether the
previous character was whitespace (in which case the run was already reduced
to a single space). -/
def collapseWsAux : Bool → List Char → List Char
  | _, [] => []
  | prevWs, c :: cs =>
    if isWsChar c then
      if prevWs then collapseWsAux true cs else ' ' :: collapseWsAux true cs
    else c :: collapseWsAux false cs

/-- `re.sub(r"\s+", " ", s)`: each maximal whitespace run becomes one space. -/
def collapseWs (l : List Char) : List Char := collapseWsAux false l

/-- Python `str.strip()`. -/
def trimWs (l : List Char) : List Char :=
  ((l.dropWhile isWsChar).reverse.dropWhile isWsChar).reverse

/-- `s.replace("\n", " ").replace("\r", " ")` on a single character. -/
def replNlChar (c : Char) : Char := if c = '\n' || c = '\r' then ' ' else c

/-- Embedding of `_norm_text` (app.py:129-135) on a character list:
NFKC (identity on ASCII), newlines to spaces, whitespace collapse, strip,
lower-case, and removal of `[^\w\s]` characters. -/
def normText (l : List Char) : List Char :=
  ((trimWs (collapseWs (l.map replNlChar))).map lowerChar).filter
    (fun c => isWordChar c || isWsChar c)

/-- Worksheet cell values occurring in this program: strings and ints. -/
inductive Val where
  | str (s : List Char)
  | int (n : Int)
deriving DecidableEq, Repr

/-- Decimal digits of a natural number, as produced by Python `str`. -/
def natDigits (n : Nat) : List Char := Nat.toDigits 10 n

/-- Python `str` of an int. -/
def intRepr : Int → List Char
  | .ofNat n => natDigits n
  | .negSucc n => '-' :: natDigits (n + 1)

/-- Python `str(v)` of a cell value. -/
def valStr : Val → List Char
  | .str s => s
  | .int n => intRepr n

/-- Python `str(v or "")` of an optional cell value: `None`, the empty string
and the int `0` are falsy and give `""`. -/
def pyStrOr : Option Val → List Char
  | none => []
  | some (.str s) => s
  | some (.int n) => if n = 0 then [] else intRepr n

/-- Case-insensitive literal matching: strip the (lower-case) pattern prefix
from the input, returning the rest on success. -/
def stripLitCI : List Char → List Char → Option (List Char)
  | [], l => some l
  | _ :: _, [] => none
  | p :: ps, c :: cs => if lowerChar c = p then stripLitCI ps cs else none

/-- Greedy `\s*`. -/
def dropWs (l : List Char) : List Char := l.dropWhile isWsChar

/-- `\s+` followed by greedy `\s*`: requires at least one whitespace char. -/
def stripWs1 : List Char → Option (List Char)
  | [] => none
  | c :: cs => if isWsChar c then some (dropWs cs) else none

/-- `\d+$`: a nonempty all-digit remainder. -/
def isDigits1 (l : List Char) : Bool := !l.isEmpty && l.all Char.isDigit

/-- Full anchored match of `IMG_LABEL_RE` (app.py:262-265):
`^(foto\s+(sampul|utama|produk\s+\d+)|cover\s*image|item\s*image\s*\d+)$`,
case-insensitively. -/
def imgLabelMatch (l : List Char) : Bool :=
  (match stripLitCI "foto".data l with
   | some r1 =>
     match stripWs1 r1 with
     | some r2 =>
       (stripLitCI "sampul".data r2 = some ([] : List Char)) ||
       (stripLitCI "utama".data r2 = some ([] : List Char)) ||
       (match stripLitCI "produk".data r2 with
        | some r3 =>
          match stripWs1 r3 with
          | some r4 => isDigits1 r4
          | none => false
        | none => false)
     | none => false
   | none => false) ||
  (match stripLitCI "cover".data l with
   | some r1 => stripLitCI "image".data (dropWs r1) = some ([] : List Char)
   | none => false) ||
  (match stripLitCI "item".data l with
   | some r1 =>
     match stripLitCI "image".data (dropWs r1) with
     | some r2 => isDigits1 (dropWs r2)
     | none => false
   | none => false)

/-- The `HEADER_ALIASES` table (app.py:270-283), in source order. -/
def headerAliases : List (List Char × List (List Char)) := [
  ("Kategori".data,
    ["kategori".data, "category".data, "product category".data, "category id".data]),
  ("Nama Produk".data,
    ["nama produk".data, "product name".data, "name".data, "nama".data]),
  ("Deskripsi Produk".data,
    ["deskripsi produk".data, "product description".data, "description".data]),
  ("Foto Produk".data,
    ["foto produk".data, "images".data, "image urls".data, "product images".data,
     "photo".data, "photos".data, "gambar".data, "url gambar".data]),
  ("Harga".data, ["harga".data, "price".data]),
  ("Stok".data, ["stok".data, "stock".data, "quantity".data]),
  ("SKU Induk".data,
    ["sku induk".data, "sku".data, "parent sku".data, "model sku".data]),
  ("Berat (gram)".data,
    ["berat gram".data, "berat".data, "berat produk".data, "weight".data,
     "weight g".data, "weight gram".data]),
  ("Panjang Paket (cm)".data,
    ["panjang paket cm".data, "panjang cm".data, "panjang".data, "length".data,
     "length cm".data]),
  ("Lebar Paket (cm)".data,
    ["lebar paket cm".data, "lebar cm".data, "lebar".data, "width".data,
     "width cm".data]),
  ("Tinggi Paket (cm)".data,
    ["tinggi paket cm".data, "tinggi cm".data, "tinggi".data, "height".data,
     "height cm".data]),
  ("Masa Garansi".data,
    ["masa garansi".data, "garansi".data, "warranty period".data, "warranty".data,
     "warranty duration".data])]

def kKategori : List Char := "Kategori".data
def kNamaProduk : List Char := "Nama Produk".data
def kDeskripsi : List Char := "Deskripsi Produk".data
def kFotoProduk : List Char := "Foto Produk".data
def kHarga : List Char := "Harga".data
def kStok : List Char := "Stok".data
def kSku : List Char := "SKU Induk".data
def kBerat : List Char := "Berat (gram)".data
def kPanjang : List Char := "Panjang Paket (cm)".data
def kLebar : List Char := "Lebar Paket (cm)".data
def kTinggi : List Char := "Tinggi Paket (cm)".data
def kGaransi : List Char := "Masa Garansi".data

/-- A worksheet: a total cell function (1-based row/column; `none` is an empty
cell, as `openpyxl` reports for cells that do not exist) plus the current
`max_column` / `max_row` dimensions. -/
structure Ws where
  cells : Nat → Nat → Option Val
  maxCol : Nat
  maxRow : Nat

/-- The merged header text of column `c` for a `(startR, hRows)` combination
(app.py:321-327): cell texts of rows `startR ..` (clipped at row 50) that are
nonempty after stripping, joined by single spaces. -/
def mergedText (ws : Ws) (startR hRows c : Nat) : List Char :=
  List.intercalate [' ']
    ((List.range' startR (min (startR + hRows) 51 - startR)).filterMap
      (fun rr =>
        match ws.cells rr c with
        | none => none
        | some v => if trimWs (valStr v) = [] then none else some (valStr v)))

/-- Normalized merged header text of a column (app.py:328). -/
def colText (ws : Ws) (startR hRows c : Nat) : List Char :=
  normText (mergedText ws startR hRows c)

/-- First column (1..160) whose normalized text equals one of the target's
normalized aliases (app.py:331-337); empty-text columns are excluded as in
`col_to_text`. -/
def resolveField (ws : Ws) (startR hRows : Nat) (aliases : List (List Char)) :
    Option Nat :=
  let aliasNorm := aliases.map normText
  (List.range' 1 160).find? (fun c =>
    let t := colText ws startR hRows c
    !t.isEmpty && aliasNorm.contains t)

/-- The `found` mapping built for a `(startR, hRows)` combination: targets in
`HEADER_ALIASES` order, each with its first matching column if one exists. -/
def foundFields (ws : Ws) (startR hRows : Nat) : List (List Char × Nat) :=
  headerAliases.filterMap (fun ta =>
    (resolveField ws startR hRows ta.2).map (fun c => (ta.1, c)))

/-- The image-slot columns of a combination (app.py:339-342): columns 1..160
whose normalized text fully matches `IMG_LABEL_RE`, in ascending column order
(`sorted(image_cols)` at app.py:346 is the identity on this list). -/
def imageColsAt (ws : Ws) (startR hRows : Nat) : List Nat :=
  (List.range' 1 160).filter (fun c => imgLabelMatch (colText ws startR hRows c))

/-- Lookup in the `found` association list. -/
def fieldsGet (f : List (List Char × Nat)) (k : List Char) : Option Nat :=
  (f.find? (fun e => e.1 == k)).map (fun e => e.2)

/-- Embedding of `_find_header_positions` (app.py:317-347) with its default
window `search_rows=50`, `search_cols=160`.  The Python function returns the
tuple `(None, {}, [])` when no combination is accepted; that is modelled as
`none`. -/
def findHeaderPositions (ws : Ws) :
    Option (Nat × List (List Char × Nat) × List Nat) :=
  (List.range' 1 50).findSome? (fun startR =>
    [1, 2, 3].findSome? (fun hRows =>
      let found := foundFields ws startR hRows
      let imageCols := imageColsAt ws startR hRows
      if (fieldsGet found kKategori).isSome &&
         ((fieldsGet found kNamaProduk).isSome &&
          ((fieldsGet found kDeskripsi).isSome ||
           (!imageCols.isEmpty ||
            (fieldsGet found kFotoProduk).isSome)))
      then some (startR + hRows - 1, found, imageCols)
      else none))

/-- The scan order of header candidates: start rows 1..50 ascending, heights
1, 2, 3 ascending within each start row. -/
def scanPairs : List (Nat × Nat) :=
  (List.range' 1 50).flatMap (fun r => [1, 2, 3].map (Prod.mk r))

/-- The acceptance condition of the claim: `category` and `product name`
resolved, and `description` resolved or an image-slot column exists or the
`photo` field is resolved. -/
def headerAccepted (ws : Ws) (p : Nat × Nat) : Bool :=
  (fieldsGet (foundFields ws p.1 p.2) kKategori).isSome &&
  ((fieldsGet (foundFields ws p.1 p.2) kNamaProduk).isSome &&
   ((fieldsGet (foundFields ws p.1 p.2) kDeskripsi).isSome ||
    (!(imageColsAt ws p.1 p.2).isEmpty ||
     (fieldsGet (foundFields ws p.1 p.2) kFotoProduk).isSome)))

/-- The value returned for an accepted combination: header row
`startR + hRows - 1`, the field mapping, and the image columns. -/
def mkHeaderResult (ws : Ws) (p : Nat × Nat) :
    Nat × List (List Char × Nat) × List Nat :=
  (p.1 + p.2 - 1, foundFields ws p.1 p.2, imageColsAt ws p.1 p.2)

/-! Template-writer state (app.py:349-466).  `openpyxl` cell writes update the
worksheet dimensions; `setCell` models `ws.cell(r, c).value = v`. -/

def setCell (ws : Ws) (r c : Nat) (v : Val) : Ws :=
  ⟨fun r2 c2 => if r2 = r ∧ c2 = c then some v else ws.cells r2 c2,
   max ws.maxCol c, max ws.maxRow r⟩

/-- The `colmap_found` dict: an association list from header label to column. -/
abbrev Colmap := List (List Char × Nat)

def colmapGet (cm : Colmap) (k : List Char) : Option Nat :=
  (List.find? (fun e => e.1 == k) cm).map (fun e => e.2)

/-- Python dict assignment `cm[k] = v`. -/
def colmapSet (cm : Colmap) (k : List Char) (v : Nat) : Colmap :=
  match cm with
  | [] => [(k, v)]
  | e :: rest => if e.1 == k then (k, v) :: rest else e :: colmapSet rest k v

/-- `ensure_col` (app.py:385-391): reuse the mapped column when the label is
present (and truthy); otherwise append a new header column at
`ws.max_column + 1` and record it. -/
def ensureCol (ws : Ws) (hdr : Nat) (cm : Colmap) (label : List Char) :
    Ws × Colmap :=
  match colmapGet cm label with
  | some c =>
    if c ≠ 0 then (ws, cm)
    else
      let newIdx := ws.maxCol + 1
      (setCell ws hdr newIdx (.str label), colmapSet cm label newIdx)
  | none =>
    let newIdx := ws.maxCol + 1
    (setCell ws hdr newIdx (.str label), colmapSet cm label newIdx)

/-- The labels ensured before writing (app.py:393-396): the three required
fields followed by the optional ones, in source order. -/
def ensuredLabels : List (List Char) :=
  [kKategori, kNamaProduk, kDeskripsi,
   kHarga, kStok, kSku, kBerat, kPanjang, kLebar, kTinggi, kFotoProduk, kGaransi]

def ensureAllCols (ws : Ws) (hdr : Nat) (cm : Colmap) : Ws × Colmap :=
  ensuredLabels.foldl (fun s label => ensureCol s.1 hdr s.2 label) (ws, cm)

/-- Case-sensitive literal prefix strip (for the uncased regex at
app.py:409). -/
def stripLit : List Char → List Char → Option (List Char)
  | [], l => some l
  | _ :: _, [] => none
  | p :: ps, c :: cs => if c = p then stripLit ps cs else none

def digitsToNat (l : List Char) : Nat :=
  l.foldl (fun a c => a * 10 + (c.toNat - 48)) 0

/-- Attempted match of `(?:item image|foto produk)\s*(\d+)$` starting at the
head of `l`, returning the captured number. -/
def endNumAt (l : List Char) : Option Nat :=
  match stripLit "item image".data l with
  | some r =>
    let d := dropWs r
    if isDigits1 d then some (digitsToNat d) else none
  | none =>
    match stripLit "foto produk".data l with
    | some r =>
      let d := dropWs r
      if isDigits1 d then some (digitsToNat d) else none
    | none => none

/-- `re.search(r"(?:item image|foto produk)\s*(\d+)$", t)`: leftmost start
position wins. -/
def endNumSearch : List Char → Option Nat
  | [] => none
  | c :: cs =>
    match endNumAt (c :: cs) with
    | some n => some n
    | none => endNumSearch cs

/-- `_img_rank` (app.py:405-412): cover labels rank (0,0,c), numbered slots
(1, n, c), anything else (2, 999, c). -/
def imgRank (ws : Ws) (hdr c : Nat) : Nat × Nat × Nat :=
  let t := normText (pyStrOr (ws.cells hdr c))
  if t = "cover image".data ∨ t = "foto sampul".data ∨ t = "foto utama".data then
    (0, 0, c)
  else
    match endNumSearch t with
    | some n => (1, n, c)
    | none => (2, 999, c)

/-- Lexicographic comparison of rank triples (Python tuple order). -/
def rankLe (a b : Nat × Nat × Nat) : Bool :=
  decide (a.1 < b.1) ||
  (decide (a.1 = b.1) &&
   (decide (a.2.1 < b.2.1) ||
    (decide (a.2.1 = b.2.1) && decide (a.2.2 ≤ b.2.2))))

/-- Stable insertion (an element goes before the first strictly greater one,
hence after earlier elements with an equal key), matching Python's stable
`sorted`. -/
def stableInsert {α : Type} (le : α → α → Bool) (a : α) : List α → List α
  | [] => [a]
  | b :: bs =>
    if le b a && !le a b then b :: stableInsert le a bs else a :: b :: bs

/-- Stable sort by a total preorder, as Python's `sorted(·, key=…)`. -/
def stableSort {α : Type} (le : α → α → Bool) : List α → List α
  | [] => []
  | a :: as => stableInsert le a (stableSort le as)

/-- The writer's re-derived image-slot columns (app.py:398-414): scan the
header row over columns 1..max_column for `IMG_LABEL_RE` matches (ascending,
so the intermediate `sorted(img_cols)` is the identity), then stable-sort by
`_img_rank`. -/
def imgColsRescan (ws : Ws) (hdr : Nat) : List Nat :=
  stableSort (fun a b => rankLe (imgRank ws hdr a) (imgRank ws hdr b))
    ((List.range' 1 ws.maxCol).filter
      (fun c => imgLabelMatch (normText (pyStrOr (ws.cells hdr c)))))

/-- `row_has_data` (app.py:416-420): some column in 1..max_column has a value
that is non-blank under `str(v or "").strip()`. -/
def rowHasData (ws : Ws) (r : Nat) : Bool :=
  (List.range' 1 ws.maxCol).any (fun c => !(trimWs (pyStrOr (ws.cells r c))).isEmpty)

/-- The `while row_has_data(r): r += 1` scan, written with explicit fuel; with
fuel `ws.maxRow + 1` it always reaches a blank row on a bounded worksheet. -/
def firstBlankFrom (ws : Ws) : Nat → Nat → Nat
  | r, 0 => r
  | r, fuel + 1 => if rowHasData ws r then firstBlankFrom ws (r + 1) fuel else r

/-- The insertion cursor (app.py:421-422): first blank row at or below
`hdr + 1`. -/
def cursorRow (ws : Ws) (hdr : Nat) : Nat :=
  firstBlankFrom ws (hdr + 1) (ws.maxRow + 1)

/-- A worksheet whose cell function is supported inside its dimensions, as is
the case for every `openpyxl` worksheet (`max_row` / `max_column` bound the
existing cells). -/
def wsBounded (ws : Ws) : Prop :=
  ∀ r c, (ws.maxRow < r ∨ ws.maxCol < c) → ws.cells r c = none

/-- A product record as handed to the writer (app.py:720-730): the mandatory
entries of the row dict, plus the optional ones as `Option`s (`none` models a
missing dict key).  Numeric conversions (`int(price)`,
`int(round(weight_kg*1000))`, `int(L)`, …) are modelled as precomputed `Int`
fields, since only the written cell values matter here. -/
structure Rec where
  category_id : List Char
  name : List Char
  description : List Char
  price : Option Int
  stock : Option Int
  sku : Option (List Char)
  weightGram : Option Int
  dims : Option (Int × Int × Int)
  image_urls : List (List Char)
  warranty : Option (List Char)
deriving DecidableEq, Repr

/-- Write `v` at the record's row in the column mapped for `label`, when the
value is present and the label is mapped (the common
`if "k" in row and "L" in colmap_found:` shape of app.py:431-445). -/
def writeOptCell (ws : Ws) (r : Nat) (cm : Colmap) (label : List Char)
    (v : Option Val) : Ws :=
  match v, colmapGet cm label with
  | some v, some c => setCell ws r c v
  | _, _ => ws

/-- Unconditional write at `C(label)` (app.py:424, 427-429); after the ensure
phase the label is always mapped, the 0 default is never exercised there. -/
def writeReqCell (ws : Ws) (r : Nat) (cm : Colmap) (label : List Char)
    (v : Val) : Ws :=
  setCell ws r ((colmapGet cm label).getD 0) v

/-- The image-slot writes (app.py:447-451): positionally place
`urls[idx]` into the idx-th ranked image column; `enumerate` plus the
`idx < len(urls)` guard is exactly a zip. -/
def writeImages (ws : Ws) (r : Nat) (imgCols : List Nat)
    (urls : List (List Char)) : Ws :=
  (imgCols.zip urls).foldl (fun w cu => setCell w r cu.1 (.str cu.2)) ws

/-- The string written for warranty (app.py:456):
`row.get("warranty") or "No Warranty"`. -/
def warrantyText (w : Option (List Char)) : List Char :=
  match w with
  | some s => if s.isEmpty then "No Warranty".data else s
  | none => "No Warranty".data

/-- The three-dimension writes (app.py:441-445). -/
def writeDims (ws : Ws) (r : Nat) (cm : Colmap)
    (dims : Option (Int × Int × Int)) : Ws :=
  match dims with
  | some d =>
    writeOptCell
      (writeOptCell (writeOptCell ws r cm kPanjang (some (.int d.1)))
        r cm kLebar (some (.int d.2.1)))
      r cm kTinggi (some (.int d.2.2))
  | none => ws

/-- The image placement (app.py:447-454): positional slots when ranked image
columns exist, otherwise the comma-joined photo column. -/
def writeImagePart (ws : Ws) (r : Nat) (cm : Colmap) (imgCols : List Nat)
    (urls : List (List Char)) : Ws :=
  if imgCols.isEmpty then
    match colmapGet cm kFotoProduk with
    | some c => setCell ws r c (.str (List.intercalate [','] urls))
    | none => ws
  else writeImages ws r imgCols urls

/-- All writes of one record up to (and excluding) the warranty cell
(app.py:427-454), in source order. -/
def writeRecordCore (ws : Ws) (r : Nat) (cm : Colmap) (imgCols : List Nat)
    (rec : Rec) : Ws :=
  let ws := writeReqCell ws r cm kKategori (.str rec.category_id)
  let ws := writeReqCell ws r cm kNamaProduk (.str rec.name)
  let ws := writeReqCell ws r cm kDeskripsi (.str rec.description)
  let ws := writeOptCell ws r cm kHarga (rec.price.map .int)
  let ws := writeOptCell ws r cm kStok (rec.stock.map .int)
  let ws := writeOptCell ws r cm kSku (rec.sku.map .str)
  let ws := writeOptCell ws r cm kBerat (rec.weightGram.map .int)
  let ws := writeDims ws r cm rec.dims
  writeImagePart ws r cm imgCols (rec.image_urls.take 8)

/-- Writing one record at row `r` (app.py:426-461), in source order; the
warranty branch may extend the column map via `ensure_col` (dead in practice,
since the ensure phase has already mapped `Masa Garansi`). -/
def writeRecord (ws : Ws) (hdr : Nat) (cm : Colmap) (imgCols : List Nat)
    (r : Nat) (rec : Rec) : Ws × Colmap :=
  let ws1 := writeRecordCore ws r cm imgCols rec
  let wt := warrantyText rec.warranty
  match colmapGet cm kGaransi with
  | some c => (setCell ws1 r c (.str wt), cm)
  | none =>
    let wc := ensureCol ws1 hdr cm kGaransi
    (setCell wc.1 r ((colmapGet wc.2 kGaransi).getD 0) (.str wt), wc.2)

/-- The record loop (app.py:426-463): one row per record, cursor advancing by
one; returns the final worksheet, column map and cursor. -/
def writeRows (hdr : Nat) (imgCols : List Nat) :
    Ws → Colmap → Nat → List Rec → Ws × Colmap × Nat
  | ws, cm, r, [] => (ws, cm, r)
  | ws, cm, r, rec :: rest =>
    let wc := writeRecord ws hdr cm imgCols r rec
    writeRows hdr imgCols wc.1 wc.2 (r + 1) rest

/-- The writing phase of `write_rows_to_shopee_template` after header
resolution (app.py:385-463): ensure all columns, re-derive the ranked image
columns, locate the blank-row cursor, then write the records. -/
def writePhase (ws : Ws) (hdr : Nat) (cm : Colmap) (rows : List Rec) :
    Ws × Colmap × Nat :=
  let s1 := ensureAllCols ws hdr cm
  let imgCols := imgColsRescan s1.1 hdr
  let cur := cursorRow s1.1 hdr
  writeRows hdr imgCols s1.1 s1.2 cur rows

/-! Media normalizer (app.py:55-67). -/

/-- The quality ladder of `_shopee_safe_jpg_bytes` (app.py:58). -/
def qualityLadder : List Nat :=
  [92, 90, 88, 86, 84, 82, 80, 78, 76, 74, 72, 70, 68, 66, 64]

/-- `MAX_SHOPEE_IMG_BYTES` (app.py:21). -/
def maxShopeeImgBytes : Nat := 2000000

/-- Embedding of `_shopee_safe_jpg_bytes` (app.py:55-67).  The JPEG encoding
of the (RGB-converted) image at quality `q` is abstracted as a pure function
`encode : Nat → β` from quality to a byte-string type `β` carrying its length
`size` (the function inspects its bytes only through `len`); the loop returns
the first ladder encoding within the byte budget, and after falling off the
ladder it re-encodes once more at quality 60 and returns that
unconditionally. -/
def shopeeSafeJpgBytes {β : Type} (encode : Nat → β) (size : β → Nat)
    (maxBytes : Nat) : β :=
  match qualityLadder.find? (fun q => decide (size (encode q) ≤ maxBytes)) with
  | some q => encode q
  | none => encode 60

/-- An image whose encodings all exceed the byte budget: byte strings are
represented by their size, `2000001 + q` bytes at quality `q`. -/
def encBigN : Nat → Nat := fun q => 2000001 + q

/-- An image with tiny encodings: `q` bytes at quality `q`. -/
def encSmallN : Nat → Nat := fun q => q

/-! URL sanitizer (app.py:44-53), over an embedding of the Python stdlib
`urllib.parse.urlsplit` / `urlunsplit` pair (scheme detection, netloc split,
fragment/query split, control-character stripping, and the bracket
`ValueError`, which is modelled as `none`). -/

/-- `scheme_chars`: letters, digits and `+-.`. -/
def schemeChar (c : Char) : Bool :=
  c.isAlphanum || c = '+' || c = '-' || c = '.'

structure SplitResult where
  scheme : List Char
  netloc : List Char
  path : List Char
  query : List Char
  fragment : List Char
deriving DecidableEq, Repr

/-- The unsafe bytes `\t\r\n` removed by `urlsplit` before parsing. -/
def isTabNl (c : Char) : Bool := c = '\t' || c = '\r' || c = '\n'

/-- Scheme detection of `urlsplit`: a leading `name:` is a scheme iff the
colon is not first, the first character is an (ASCII) letter and all
characters before the colon are scheme characters; the scheme is
lower-cased. -/
def splitScheme (url : List Char) : List Char × List Char :=
  let p := url.span (fun c => c ≠ ':')
  match p.2 with
  | [] => ([], url)
  | _ :: rest2 =>
    match p.1 with
    | [] => ([], url)
    | c0 :: _ =>
      if c0.isAlpha && p.1.all schemeChar then (p.1.map lowerChar, rest2)
      else ([], url)

/-- `_splitnetloc`: everything after `//` up to the first `/`, `?` or `#`. -/
def splitNetloc (url : List Char) : List Char × List Char :=
  (url.drop 2).span (fun c => ¬(c = '/' ∨ c = '?' ∨ c = '#'))

def hexVal (c : Char) : Option Nat :=
  if c.isDigit then some (c.toNat - 48)
  else if 'a' ≤ c ∧ c ≤ 'f' then some (c.toNat - 87)
  else if 'A' ≤ c ∧ c ≤ 'F' then some (c.toNat - 55)
  else none

def isHexChar (c : Char) : Bool := (hexVal c).isSome

/-- A valid IPv6 hextet: one to four hex digits. -/
def hextetOk (p : List Char) : Bool :=
  !p.isEmpty && decide (p.length ≤ 4) && p.all isHexChar

/-- One octet of a dotted quad, as accepted by `ipaddress.IPv4Address`
(1..3 digits, value ≤ 255, no leading zero). -/
def ipv4Octet (p : List Char) : Bool :=
  !p.isEmpty && decide (p.length ≤ 3) && p.all Char.isDigit &&
  (decide (p.length = 1) || decide (p.headD '0' ≠ '0')) &&
  decide (digitsToNat p ≤ 255)

def ipv4Ok (l : List Char) : Bool :=
  let ps := l.splitOn '.'
  decide (ps.length = 4) && ps.all ipv4Octet

/-- The hextet-count check of `IPv6Address._ip_int_from_string`, after the
optional trailing-IPv4 expansion (the split parts, at most one interior `::`
gap, eight populated hextets in total). -/
def ipv6Core (a : List Char) : Bool :=
  let parts0 := a.splitOn ':'
  if parts0.length < 3 then false
  else
    let lastP := parts0.getLastD []
    let hasV4 := lastP.contains '.'
    if hasV4 && !ipv4Ok lastP then false
    else
      let parts := if hasV4 then parts0.dropLast ++ [['0'], ['0']] else parts0
      if 9 < parts.length then false
      else
        let inner := (List.range parts.length).filter (fun i =>
          decide (0 < i) && decide (i < parts.length - 1) &&
          (parts.getD i []).isEmpty)
        match inner with
        | [] =>
          decide (parts.length = 8) && !(parts.headD []).isEmpty &&
          !(parts.getLastD []).isEmpty && parts.all hextetOk
        | [i] =>
          let hi := if (parts.headD []).isEmpty then i - 1 else i
          let lo0 := parts.length - i - 1
          let lo := if (parts.getLastD []).isEmpty then lo0 - 1 else lo0
          (!(parts.headD []).isEmpty || decide (i = 1)) &&
          (!(parts.getLastD []).isEmpty || decide (lo0 = 1)) &&
          decide (hi + lo ≤ 7) &&
          (parts.take hi).all hextetOk &&
          (parts.drop (parts.length - lo)).all hextetOk
        | _ => false

/-- `IPv6Address.__init__` on the host string: an optional nonempty `%` scope
suffix, then the hextet parse. -/
def ipv6Ok (addr : List Char) : Bool :=
  let sp := addr.span (fun c => c ≠ '%')
  (match sp.2 with
   | [] => true
   | _ :: sc => !sc.isEmpty && !sc.contains '%') &&
  !addr.contains '/' && ipv6Core sp.1

/-- `_check_bracketed_host`: a `v`-future literal (`v` + hex digits + `.` +
anything), or a valid IPv6 (not IPv4) address. -/
def bracketedHostOk (h : List Char) : Bool :=
  match h with
  | 'v' :: rest =>
    let p := rest.span isHexChar
    !p.1.isEmpty &&
    (match p.2 with
     | '.' :: t => !t.isEmpty
     | _ => false)
  | _ => !ipv4Ok h && ipv6Ok h

/-- `_WHATWG_C0_CONTROL_OR_SPACE` characters, stripped from the left of the
URL. -/
def isC0OrSpace (c : Char) : Bool := decide (c.toNat ≤ 32)

/-- Embedding of `urlsplit` (CPython 3.11, allow_fragments=True); `none`
models the `ValueError` raised on an unbalanced `[`/`]` in the netloc or on
an invalid bracketed host.  `_checknetloc` is a no-op on ASCII netlocs and is
omitted. -/
def urlsplitM (u : List Char) : Option SplitResult :=
  let url0 := (u.dropWhile isC0OrSpace).filter (fun c => !isTabNl c)
  let s := splitScheme url0
  let n := if s.2.take 2 = ['/', '/'] then splitNetloc s.2 else ([], s.2)
  if (n.1.contains '[' ∧ ¬n.1.contains ']') ∨
     (n.1.contains ']' ∧ ¬n.1.contains '[') then none
  else if n.1.contains '[' ∧ n.1.contains ']' ∧
      ¬bracketedHostOk ((((n.1.span (fun c => c ≠ '[')).2.drop 1).span
        (fun c => c ≠ ']')).1) then none
  else
    let f := n.2.span (fun c => c ≠ '#')
    let fragment := match f.2 with | [] => [] | _ :: t => t
    let q := f.1.span (fun c => c ≠ '?')
    some ⟨s.1, n.1, q.1, (match q.2 with | [] => [] | _ :: t => t), fragment⟩

/-- The `uses_netloc` scheme list of `urllib.parse` (the empty-string entry
is irrelevant under the `scheme and …` guard). -/
def usesNetloc : List (List Char) :=
  ["ftp".data, "http".data, "gopher".data, "nntp".data, "telnet".data,
   "imap".data, "wais".data, "file".data, "mms".data, "https".data,
   "shttp".data, "snews".data, "prospero".data, "rtsp".data, "rtsps".data,
   "rtspu".data, "rsync".data, "svn".data, "svn+ssh".data, "sftp".data,
   "nfs".data, "git".data, "git+ssh".data, "ws".data, "wss".data]

/-- Embedding of `urlunsplit` (CPython 3.11). -/
def urlunsplitM (s n p q f : List Char) : List Char :=
  let url :=
    if n ≠ [] ∨ (s ≠ [] ∧ usesNetloc.contains s ∧ p.take 2 ≠ ['/', '/']) then
      '/' :: '/' :: (n ++ (if p ≠ [] ∧ p.take 1 ≠ ['/'] then '/' :: p else p))
    else p
  let url := if s ≠ [] then s ++ ':' :: url else url
  let url := if q ≠ [] then url ++ '?' :: q else url
  if f ≠ [] then url ++ '#' :: f else url

/-- `\b` boundary on the following side: next character is a non-word
character, or the end of the string. -/
def boundaryAfter (l : List Char) : Bool :=
  match l with
  | [] => true
  | c :: _ => !isWordChar c

/-- One scanning pass of `re.sub(r"(?i)/format,webp\b", "", q)` (app.py:49):
leftmost, non-overlapping; fuel is the remaining length. -/
def sub1Go : Nat → List Char → List Char
  | _, [] => []
  | 0, l => l
  | fuel + 1, c :: cs =>
    match stripLitCI "/format,webp".data (c :: cs) with
    | some rest =>
      if boundaryAfter rest then sub1Go fuel rest
      else c :: sub1Go fuel cs
    | none => c :: sub1Go fuel cs

def sub1 (l : List Char) : List Char := sub1Go l.length l

/-- A case-insensitive `format=webp\b` match at the head, returning the
rest. -/
def fwMatch (l : List Char) : Option (List Char) :=
  match stripLitCI "format=webp".data l with
  | some rest => if boundaryAfter rest then some rest else none
  | none => none

/-- Scanning for `([&?])format=webp\b` at positions past the start
(app.py:50); the matched `&`/`?` is kept by the `\1` of the replacement. -/
def sub2Go : Nat → List Char → List Char
  | _, [] => []
  | 0, l => l
  | fuel + 1, c :: cs =>
    if c = '&' ∨ c = '?' then
      match fwMatch cs with
      | some rest => c :: ("format=png".data ++ sub2Go fuel rest)
      | none => c :: sub2Go fuel cs
    else c :: sub2Go fuel cs

/-- `re.sub(r"(?i)(^|[&?])format=webp\b", r"\1format=png", q)`: the anchored
`^` alternative first, then the scan. -/
def sub2 (l : List Char) : List Char :=
  match fwMatch l with
  | some rest => "format=png".data ++ sub2Go rest.length rest
  | none => sub2Go l.length l

/-- Embedding of `shopee_safe_image_url` (app.py:44-53); `none` is the
propagated `urlsplit` `ValueError`. -/
def shopeeSafeImageUrl (u : List Char) : Option (List Char) :=
  if u.isEmpty then some []
  else
    match urlsplitM u with
    | none => none
    | some sp =>
      let q1 := sub2 (sub1 sp.query)
      if q1.isEmpty || q1 = "x-oss-process=".data then
        some (urlunsplitM sp.scheme sp.netloc sp.path [] [])
      else some (urlunsplitM sp.scheme sp.netloc sp.path q1 [])

/-! Text normalizer (app.py:141-197, 262-291). -/

/-- Modelled from the Python stdlib `html.unescape`, restricted to the basic
named entities and `&#…;` numeric character references (the full HTML5 entity
table and the semicolon-less forms are outside the model; inputs without `&`
are untouched, exactly as in the stdlib). -/
def namedEntities : List (List Char × Char) :=
  [("amp".data, '&'), ("lt".data, '<'), ("gt".data, '>'),
   ("quot".data, '"'), ("apos".data, '\x27'), ("nbsp".data, '\xA0')]

def numFrom (base : Nat) (ds : List Char) : Option Nat :=
  ds.foldl (fun a c =>
    match a, hexVal c with
    | some n, some d => if d < base then some (n * base + d) else none
    | _, _ => none) (some 0)

/-- Parse one character reference after a `&`, requiring a closing `;`. -/
def parseCharref (l : List Char) : Option (Char × List Char) :=
  match l with
  | '#' :: rest =>
    let hx := match rest with
      | 'x' :: t => some (16, t)
      | 'X' :: t => some (16, t)
      | _ => some (10, rest)
    match hx with
    | some bt =>
      let p := bt.2.span (fun c => c ≠ ';')
      match p.2 with
      | [] => none
      | _ :: after =>
        if p.1.isEmpty then none
        else
          match numFrom bt.1 p.1 with
          | some n => if n < 1114112 then some (Char.ofNat n, after) else none
          | none => none
    | none => none
  | _ =>
    namedEntities.findSome? (fun e =>
      match stripLit (e.1 ++ [';']) l with
      | some rest => some (e.2, rest)
      | none => none)

def htmlUnescapeGo : Nat → List Char → List Char
  | _, [] => []
  | 0, l => l
  | fuel + 1, c :: cs =>
    if c = '&' then
      match parseCharref cs with
      | some pr => pr.1 :: htmlUnescapeGo fuel pr.2
      | none => c :: htmlUnescapeGo fuel cs
    else c :: htmlUnescapeGo fuel cs

def htmlUnescape (l : List Char) : List Char := htmlUnescapeGo l.length l

/-- `s.replace("\r\n", "\n").replace("\r", "\n")`. -/
def replCRLF : List Char → List Char
  | [] => []
  | '\r' :: '\n' :: t => '\n' :: replCRLF t
  | '\r' :: t => '\n' :: replCRLF t
  | c :: t => c :: replCRLF t

/-- `^\s*w\s*:.*$` (the `source` pattern, case-insensitively). -/
def removeHead1 (w : List Char) (l : List Char) : Bool :=
  match stripLitCI w (dropWs l) with
  | some r1 =>
    match dropWs r1 with
    | ':' :: _ => true
    | _ => false
  | none => false

/-- `^\s*w1\s*w2\s*:.*$` (the two-word boilerplate patterns,
case-insensitively). -/
def removeHead2 (w1 w2 : List Char) (l : List Char) : Bool :=
  match stripLitCI w1 (dropWs l) with
  | some r1 =>
    match stripLitCI w2 (dropWs r1) with
    | some r2 =>
      match dropWs r2 with
      | ':' :: _ => true
      | _ => false
    | none => false
  | none => false

/-- `re.search(r"\bFAQ\b\s*$", line, re.I)`: the boolean argument records
whether the previous character is a word character (for the leading `\b`). -/
def faqSearch : Bool → List Char → Bool
  | _, [] => false
  | prevW, c :: cs =>
    ((!prevW) &&
      (match stripLitCI "faq".data (c :: cs) with
       | some rest => rest.all isWsChar
       | none => false)) ||
    faqSearch (isWordChar c) cs

/-- A line matches one of `_REMOVE_LINE_PATTERNS` (app.py:145-151), under
`p.search` (all but the FAQ pattern are `^`-anchored). -/
def removePatternMatch (l : List Char) : Bool :=
  removeHead2 "print".data "profile".data l ||
  removeHead2 "sumber".data "desain".data l ||
  removeHead2 "design".data "source".data l ||
  removeHead1 "source".data l ||
  faqSearch false l

/-- The TLD alternatives of `URL_RE` (app.py:266-268). -/
def urlTlds : List (List Char) :=
  ["com".data, "net".data, "org".data, "id".data, "io".data, "co".data,
   "me".data, "xyz".data, "gg".data, "ly".data, "ai".data, "app".data,
   "site".data, "store".data, "shop".data, "link".data, "pdf".data,
   "zip".data]

/-- `\b` between the previous character (none at the string start) and the
next one: exactly one side is a word character. -/
def wordB (prev : Option Char) (next : Char) : Bool :=
  match prev with
  | none => isWordChar next
  | some p => isWordChar p != isWordChar next

/-- First alternative of `URL_RE`: `(?:https?://|www\.)\S+` (the preceding
`\b` is checked by the caller); the greedy `\S+` runs to the end of the
whitespace-free token. -/
def urlAlt1 (l : List Char) : Option (List Char) :=
  let sch :=
    match stripLitCI "https://".data l with
    | some r => some r
    | none =>
      match stripLitCI "http://".data l with
      | some r => some r
      | none => stripLitCI "www.".data l
  match sch with
  | some r =>
    let p := r.span (fun c => !isWsChar c)
    if p.1.isEmpty then none else some p.2
  | none => none

/-- Second alternative of `URL_RE` inside one token: does the token contain a
dot, preceded by at least one character, followed by a TLD with a `\b` after
it?  (Whatever split the regex engine picks, the trailing `\S*` extends the
match to the end of the token, so only existence matters.) -/
def urlAlt2Go : Bool → List Char → Bool
  | _, [] => false
  | hd, c :: cs =>
    (hd && (c = '.') &&
      urlTlds.any (fun t =>
        match stripLitCI t cs with
        | some r => boundaryAfter r
        | none => false)) ||
    urlAlt2Go true cs

/-- A `URL_RE` match attempt at the current position: returns the consumed
span and the rest.  Both alternatives consume to the end of the current
token. -/
def urlMatchAt (prev : Option Char) (l : List Char) : Option (List Char × List Char) :=
  match l with
  | [] => none
  | c :: _ =>
    if wordB prev c then
      match urlAlt1 l with
      | some rest => some (l.take (l.length - rest.length), rest)
      | none =>
        let p := l.span (fun ch => !isWsChar ch)
        if (!p.1.isEmpty) && urlAlt2Go false p.1 then some (p.1, p.2) else none
    else none

/-- `URL_RE.sub("", text)`: leftmost, non-overlapping scanning; after a match
scanning resumes after the matched span, whose last character becomes the
previous character for later `\b` checks. -/
def urlSubGo : Nat → Option Char → List Char → List Char
  | _, _, [] => []
  | 0, _, l => l
  | fuel + 1, prev, c :: cs =>
    match urlMatchAt prev (c :: cs) with
    | some m => urlSubGo fuel (some (m.1.getLastD c)) m.2
    | none => c :: urlSubGo fuel (some c) cs

def urlSub (l : List Char) : List Char := urlSubGo l.length none l

def isSpTab (c : Char) : Bool := c = ' ' || c = '\t'

/-- `re.sub(r"[ \t]+", " ", text)`. -/
def collapseSpTabAux : Bool → List Char → List Char
  | _, [] => []
  | prevR, c :: cs =>
    if isSpTab c then
      if prevR then collapseSpTabAux true cs else ' ' :: collapseSpTabAux true cs
    else c :: collapseSpTabAux false cs

def collapseSpTab (l : List Char) : List Char := collapseSpTabAux false l

/-- `re.sub(r"\n{3,}", "\n\n", text)`: the count tracks the current newline
run; runs of three or more newlines are emitted as two. -/
def collapseNl3Go : Nat → List Char → List Char
  | k, [] => List.replicate (min k 2) '\n'
  | k, c :: cs =>
    if c = '\n' then collapseNl3Go (k + 1) cs
    else List.replicate (min k 2) '\n' ++ c :: collapseNl3Go 0 cs

def collapseNl3 (l : List Char) : List Char := collapseNl3Go 0 l

/-- Embedding of `strip_urls` (app.py:285-291). -/
def stripUrls (l : List Char) : List Char :=
  if l.isEmpty then []
  else trimWs (collapseNl3 (collapseSpTab (urlSub l)))

/-- The lines kept by `_clean_desc_text` (app.py:156-162): entity-decoded,
newline-unified text, split into stripped nonempty lines, with every line
matching a removal pattern dropped. -/
def cleanKeptLines (desc : List Char) : List (List Char) :=
  if desc.isEmpty then []
  else
    let text := trimWs (replCRLF (htmlUnescape desc))
    (((text.splitOn '\n').map trimWs).filter (fun ln => !ln.isEmpty)).filter
      (fun ln => !removePatternMatch ln)

/-- Embedding of `_clean_desc_text` (app.py:153-163). -/
def cleanDescText (desc : List Char) : List Char :=
  if desc.isEmpty then []
  else stripUrls (List.intercalate ['\n'] (cleanKeptLines desc))

/-- Embedding of `seo_title` (app.py:141-143). -/
def seoTitle (t : List Char) : List Char :=
  (collapseWs (trimWs t) ++
    " – Cable Winder Organizer, Portable, 3D Print".data).take 255

/-- Embedding of `seo_desc` (app.py:186-197). -/
def seoDesc (desc : List Char) : List Char :=
  let base := cleanDescText desc
  let parts := (if base.isEmpty then [] else [base]) ++
    ["Kegunaan: penggulung kabel USB/Type-C/Lightning.".data,
     "Material: PLA/ABS (sesuai profil cetak).".data]
  (trimWs (List.intercalate ['\n', '\n']
    (parts.filter (fun p => !p.isEmpty)))).take 3000

/-- Python `str.replace` (all non-overlapping occurrences, left to right). -/
def replaceAllGo (needle repl : List Char) : Nat → List Char → List Char
  | _, [] => []
  | 0, l => l
  | fuel + 1, c :: cs =>
    match stripLit needle (c :: cs) with
    | some rest => repl ++ replaceAllGo needle repl fuel rest
    | none => c :: replaceAllGo needle repl fuel cs

def replaceAll (l needle repl : List Char) : List Char :=
  replaceAllGo needle repl l.length l

/-- The description-template placeholder token. -/
def placeholderTok : List Char := "\x7bscraping_description_result\x7d".data

/-- Embedding of `format_desc_with_template` (app.py:174-184). -/
def formatDescWithTemplate (scraped : List Char) (tmpl : Option (List Char)) :
    List Char :=
  match tmpl with
  | none => seoDesc scraped
  | some t =>
    if t.isEmpty then seoDesc scraped
    else
      let sc := cleanDescText scraped
      let out := replaceAll t placeholderTok (if sc.isEmpty then ['-'] else sc)
      (stripUrls (trimWs (replCRLF out))).take 3000

/-! Pipeline driver (app.py:704-730): the construction of one writer row from
a scraped listing. -/

/-- A scraped listing as produced by `scrape` (app.py:538-543). -/
structure Listing where
  title : List Char
  description : List Char
  url : List Char
  image_urls : List (List Char)
deriving DecidableEq, Repr

/-- The run configuration fields used to build rows (app.py:656-693).
Numeric conversions of the argparse values are precomputed as `Int`s, and
only the fields that flow into rows are carried. -/
structure Config where
  category_id : List Char
  price : Int
  stock : Int
  weightGram : Int
  dims : Int × Int × Int
  skuPref : List Char
  warranty : List Char
  descTemplate : Option (List Char)
deriving DecidableEq, Repr

/-- `f"{prefix}-{i:04d}"`. -/
def pad4 (n : Nat) : List Char :=
  let d := natDigits n
  List.replicate (4 - d.length) '0' ++ d

def skuStr (pre : List Char) (i : Nat) : List Char := pre ++ '-' :: pad4 i

/-- The public-URL pass (app.py:709-714): sanitize each of the first 8 image
URLs, keep the truthy results, cap at 8.  `none` models the propagated
`urlsplit` exception. -/
def urlsPublic (ls : List (List Char)) : Option (List (List Char)) :=
  ((ls.take 8).mapM shopeeSafeImageUrl).map
    (fun us => (us.filter (fun u => !u.isEmpty)).take 8)

/-- One iteration of the driver's row loop (app.py:704-730) for the `i`-th
listing: `none` is the propagated sanitizer exception, `some none` the
skipped listing (no public image URLs), `some (some rec)` an appended row.
The row dict carries no `"warranty"` key, hence `warranty := none`. -/
def mkRow (cfg : Config) (li : Listing) (i : Nat) : Option (Option Rec) :=
  match urlsPublic li.image_urls with
  | none => none
  | some ups =>
    if ups.isEmpty then some none
    else some (some
      { category_id := cfg.category_id
        name := seoTitle li.title
        description := formatDescWithTemplate li.description cfg.descTemplate
        price := some cfg.price
        stock := some cfg.stock
        sku := some (skuStr cfg.skuPref i)
        weightGram := some cfg.weightGram
        dims := some cfg.dims
        image_urls := ups
        warranty := none })

/-- An empty record (used as a concrete input in witnesses). -/
def recBlank : Rec := ⟨[], [], [], none, none, none, none, none, [], none⟩

/-- The concrete description input refuting claim C5. -/
def descCex : List Char := "www.x.com Source: xhttp://evil.zz".data

/-- A concrete run configuration. -/
def cfgC9 : Config :=
  ⟨"100642".data, 45000, 20, 150, (10, 10, 3), "MW".data,
   "Tidak bergaransi".data, none⟩

/-- A concrete scraped listing with one sanitizable image URL. -/
def liC9 : Listing :=
  ⟨"Cable Winder".data, [], "https://makerworld.com/en/models/1".data,
   ["https://x.com/a.jpg?format=webp".data]⟩

/-- The row the driver builds from `liC9` under `cfgC9`. -/
def recC9 : Rec :=
  match mkRow cfgC9 liC9 1 with
  | some (some r) => r
  | _ => recBlank

/-! Extraction orchestrator (app.py:472-553): the control flow of `scrape`,
with the browser side effects of one engine pass abstracted into a
per-engine, per-headless-mode behaviour. -/

inductive Engine where
  | chromium
  | webkit
  | firefox
deriving DecidableEq, Repr

/-- The engine order of the loop (app.py:475). -/
def engines : List Engine := [.chromium, .webkit, .firefox]

/-- The outcome of one backend's link-collection and per-link extraction
phase (app.py:504-543): normal completion with the listings appended in
order, or an exception raised after some prefix was already appended to the
shared `results` accumulator. -/
inductive CollectOut (α : Type) where
  | ok (ls : List α)
  | err (got : List α)
deriving DecidableEq, Repr

/-- One backend's behaviour under a given headless mode: `pre` — an
exception before the challenge check (launch/goto, app.py:478-493); `cf` —
the challenge marker is detected (app.py:495); `closeErrCf` / `closeErr` —
`ctx.close()` raises at the challenge-branch (app.py:500) or end-of-pass
(app.py:546) call site; `collect` — the collection phase's outcome.  The
`storage_state` calls are wrapped in their own try/except and cannot
escape. -/
structure Script (α : Type) where
  pre : Bool
  cf : Bool
  closeErrCf : Bool
  collect : CollectOut α
  closeErr : Bool
deriving DecidableEq, Repr

/-- The world: what each engine's pass does in each headless mode. -/
def World (α : Type) := Engine → Bool → Script α

/-- Control actions of one loop iteration: fall through to the next engine
(`cont`, also the `except` path), `break` on first success (app.py:547), or
return the recursive non-headless retry (app.py:501). -/
inductive Ctl where
  | cont
  | brk
  | recurse
deriving DecidableEq, Repr

/-- The body of one engine iteration (the `try` block, app.py:476-552), over
the shared `results` accumulator: an exception anywhere is caught by the
`except` clause (app.py:548-552) and the loop continues, keeping whatever
was already appended. -/
def passBody {α : Type} (s : Script α) (headless proxy : Bool)
    (results : List α) : List α × Ctl :=
  if s.pre then (results, .cont)
  else if s.cf ∧ headless ∧ ¬proxy then
    if s.closeErrCf then (results, .cont) else (results, .recurse)
  else
    match s.collect with
    | .err got => (results ++ got, .cont)
    | .ok ls =>
      if s.closeErr then (results ++ ls, .cont)
      else (results ++ ls, if (results ++ ls).isEmpty then .cont else .brk)

/-- The engine loop: `.inl results` on loop exit (fall-through or break),
`.inr ()` when the challenge branch returns the recursive call. -/
def scrapeAux {α : Type} (w : World α) (proxy headless : Bool) :
    List Engine → List α → List α ⊕ Unit
  | [], results => .inl results
  | e :: rest, results =>
    match passBody (w e headless) headless proxy results with
    | (res2, .cont) => scrapeAux w proxy headless rest res2
    | (res2, .brk) => .inl res2
    | (_, .recurse) => .inr ()

/-- Fuel-bounded `scrape`: the anti-bot retry (app.py:501) calls `scrape`
again with `headless=False` and a fresh accumulator; `none` means the fuel
bound was hit before the recursion terminated. -/
def scrapeFuel {α : Type} (w : World α) (proxy : Bool) :
    Nat → Bool → Option (List α)
  | 0, _ => none
  | fuel + 1, headless =>
    match scrapeAux w proxy headless engines [] with
    | .inl r => some r
    | .inr _ => scrapeFuel w proxy fuel false

/-- `scrape` with headless disabled: the retry branch is unreachable there
(its guard requires `headless`; see `claim_c7_single_retry`), so the
fallback `[]` of the `.inr` case is dead code. -/
def scrapeFalse {α : Type} (w : World α) (proxy : Bool) : List α :=
  match scrapeAux w proxy false engines [] with
  | .inl r => r
  | .inr _ => []

/-- Embedding of `scrape` (app.py:472-553): the single possible retry runs
with headless disabled. -/
def scrape {α : Type} (w : World α) (proxy headless : Bool) : List α :=
  match scrapeAux w proxy headless engines [] with
  | .inl r => r
  | .inr _ => if headless then scrapeFalse w proxy else []

/-- A world in which the first backend appends one listing and then raises,
and the remaining backends complete with nothing. -/
def wC6 : World Nat := fun e _ =>
  match e with
  | .chromium => ⟨false, false, false, .err [1], false⟩
  | .webkit => ⟨false, false, false, .ok [], false⟩
  | .firefox => ⟨false, false, false, .ok [], false⟩

/-- A world in which every backend raises before reaching the challenge
check. -/
def wFail : World Nat := fun _ _ => ⟨true, false, false, .ok [], false⟩

/-- A world in which the first backend detects the anti-bot challenge. -/
def wCF : World Nat := fun e _ =>
  match e with
  | .chromium => ⟨false, true, false, .ok [], false⟩
  | _ => ⟨false, false, false, .ok [], false⟩

/-- Every cell of the scanned window (rows 1..50, columns 1..160) is empty;
this holds in particular for a worksheet whose header labels all sit beyond
column 160. -/
def blankWindow (ws : Ws) : Prop :=
  ∀ r c, 1 ≤ r → r ≤ 50 → 1 ≤ c → c ≤ 160 → ws.cells r c = none

/-- The empty worksheet. -/
def wsBlank : Ws := ⟨fun _ _ => none, 0, 0⟩

/-- The spec's single-row header example: `["Category","Product Name",
"Description"]` in row 1. -/
def wsSingle : Ws :=
  ⟨fun r c =>
    if r = 1 ∧ c = 1 then some (.str "Category".data)
    else if r = 1 ∧ c = 2 then some (.str "Product Name".data)
    else if r = 1 ∧ c = 3 then some (.str "Description".data)
    else none, 3, 1⟩

/-- A single-row header whose image-slot columns are a numbered slot (column
1) followed by a cover slot (column 2), alongside the required fields. -/
def exWsC8 : Ws :=
  ⟨fun r c =>
    if r = 1 ∧ c = 1 then some (.str "Item Image 2".data)
    else if r = 1 ∧ c = 2 then some (.str "Cover Image".data)
    else if r = 1 ∧ c = 3 then some (.str "Kategori".data)
    else if r = 1 ∧ c = 4 then some (.str "Nama Produk".data)
    else none, 4, 1⟩

/-- The spec's two-row header example (`Foto`/`Foto` over `Sampul`/
`Produk 1`), alongside resolvable category and product-name columns. -/
def exWsFoto : Ws :=
  ⟨fun r c =>
    if r = 1 ∧ c = 1 then some (.str "Foto".data)
    else if r = 1 ∧ c = 2 then some (.str "Foto".data)
    else if r = 2 ∧ c = 1 then some (.str "Sampul".data)
    else if r = 2 ∧ c = 2 then some (.str "Produk 1".data)
    else if r = 1 ∧ c = 3 then some (.str "Kategori".data)
    else if r = 1 ∧ c = 4 then some (.str "Nama Produk".data)
    else none, 4, 2⟩

theorem findSome?_append {α β : Type} (l₁ l₂ : List α) (f : α → Option β) :
    (l₁ ++ l₂).findSome? f =
      (l₁.findSome? f).orElse (fun _ => l₂.findSome? f) := by
  induction l₁ with
  | nil => simp [List.findSome?]
  | cons a l ih =>
    simp only [List.cons_append, List.findSome?]
    cases f a <;> simp [ih, Option.orElse]

theorem findSome?_flatMap {α β γ : Type} (l : List α) (g : α → List β)
    (f : β → Option γ) :
    (l.flatMap g).findSome? f = l.findSome? (fun a => (g a).findSome? f) := by
  induction l with
  | nil => simp [List.findSome?]
  | cons a l ih =>
    simp only [List.flatMap_cons, List.findSome?, findSome?_append, ih]
    cases (g a).findSome? f <;> simp [Option.orElse, List.findSome?]

theorem findSome?_guard {α β : Type} (l : List α) (p : α → Bool) (g : α → β) :
    l.findSome? (fun a => if p a then some (g a) else none) =
      (l.find? p).map g := by
  induction l with
  | nil => simp [List.findSome?]
  | cons a l ih =>
    by_cases h : p a
    · simp [List.findSome?, List.find?, h]
    · simp only [List.findSome?, List.find?, h]
      simpa [h] using ih

theorem findSome?_map {α β γ : Type} (l : List α) (g : α → β) (f : β → Option γ) :
    (l.map g).findSome? f = l.findSome? (fun a => f (g a)) := by
  induction l with
  | nil => rfl
  | cons a l ih => simp [List.findSome?, ih]

/-- The header scan as a first-match search over the flattened scan order. -/
theorem findHeaderPositions_eq_scan (ws : Ws) :
    findHeaderPositions ws =
      (scanPairs.find? (headerAccepted ws)).map (mkHeaderResult ws) := by
  rw [← findSome?_guard scanPairs (headerAccepted ws) (mkHeaderResult ws)]
  unfold scanPairs
  rw [findSome?_flatMap]
  unfold findHeaderPositions
  congr 1

/-- Claim C1: for every worksheet, `resolveHeader` accepts a
`(startRow, height)` combination iff the canonical fields `category` and
`product name` are both resolved and at least one of {`description` resolved,
an image-slot column exists, `photo` resolved} holds; it returns the first
accepted combination scanning start rows 1..50 ascending and heights 1, 2, 3
ascending within a start row, and returns absent when no combination in that
window is accepted.  (`headerAccepted` is that acceptance condition,
`scanPairs` that scan order; `find?` returns the first accepted pair and
`none` when there is none.) -/
theorem claim_c1_header_scan (ws : Ws) :
    findHeaderPositions ws =
      (scanPairs.find? (headerAccepted ws)).map (mkHeaderResult ws) :=
  findHeaderPositions_eq_scan ws

theorem scanPairs_fst_pos {p : Nat × Nat} (h : p ∈ scanPairs) : 1 ≤ p.1 := by
  unfold scanPairs at h
  rw [List.mem_flatMap] at h
  obtain ⟨r, hr, hp⟩ := h
  rw [List.mem_range'] at hr
  obtain ⟨i, hi, rfl⟩ := hr
  rw [List.mem_map] at hp
  obtain ⟨hh, hhm, rfl⟩ := hp
  show 1 ≤ 1 + 1 * i
  omega

theorem colText_of_blank {ws : Ws} (hb : blankWindow ws) {r h c : Nat}
    (hr1 : 1 ≤ r) (hc1 : 1 ≤ c) (hc2 : c ≤ 160) :
    colText ws r h c = [] := by
  unfold colText mergedText
  have hnil :
      (List.range' r (min (r + h) 51 - r)).filterMap
        (fun rr =>
          match ws.cells rr c with
          | none => none
          | some v => if trimWs (valStr v) = [] then none else some (valStr v)) = [] := by
    rw [List.filterMap_eq_nil_iff]
    intro rr hrr
    rw [List.mem_range'] at hrr
    obtain ⟨i, hi, rfl⟩ := hrr
    have hcell : ws.cells (r + 1 * i) c = none := by
      apply hb <;> omega
    rw [hcell]
  rw [hnil]
  rfl

theorem resolveField_of_blank {ws : Ws} (hb : blankWindow ws) {r h : Nat}
    (hr1 : 1 ≤ r) (aliases : List (List Char)) :
    resolveField ws r h aliases = none := by
  unfold resolveField
  rw [List.find?_eq_none]
  intro c hc
  rw [List.mem_range'] at hc
  obtain ⟨i, hi, rfl⟩ := hc
  rw [colText_of_blank hb hr1 (by omega) (by omega)]
  simp

theorem foundFields_of_blank {ws : Ws} (hb : blankWindow ws) {r h : Nat}
    (hr1 : 1 ≤ r) : foundFields ws r h = [] := by
  unfold foundFields
  rw [List.filterMap_eq_nil_iff]
  intro ta _
  rw [resolveField_of_blank hb hr1]
  rfl

theorem fieldsGet_of_blank {ws : Ws} (hb : blankWindow ws) {r h : Nat}
    (hr1 : 1 ≤ r) (k : List Char) : fieldsGet (foundFields ws r h) k = none := by
  rw [foundFields_of_blank hb hr1]
  rfl

/-- Claim C10: `resolveHeader` inspects only columns 1..160 and rows 1..50:
a worksheet blank on that window resolves to absent (so header labels sitting
entirely beyond column 160 are never found), and every resolved field column
and image-slot column of any result is at most 160. -/
theorem claim_c10_window (ws : Ws) :
    (blankWindow ws → findHeaderPositions ws = none) ∧
    (∀ r f i, findHeaderPositions ws = some (r, f, i) →
      (∀ e ∈ f, e.2 ≤ 160) ∧ (∀ c ∈ i, c ≤ 160)) := by
  constructor
  · intro hb
    rw [findHeaderPositions_eq_scan]
    have hnone : scanPairs.find? (headerAccepted ws) = none := by
      rw [List.find?_eq_none]
      intro p hp
      have hr1 : 1 ≤ p.1 := scanPairs_fst_pos hp
      unfold headerAccepted
      rw [fieldsGet_of_blank hb hr1]
      simp
    rw [hnone]
    rfl
  · intro r f i hsome
    rw [findHeaderPositions_eq_scan] at hsome
    obtain ⟨p, hp, hmk⟩ := Option.map_eq_some'.mp hsome
    unfold mkHeaderResult at hmk
    have hf : foundFields ws p.1 p.2 = f := congrArg (fun t => t.2.1) hmk
    have hi : imageColsAt ws p.1 p.2 = i := congrArg (fun t => t.2.2) hmk
    constructor
    · intro e he
      rw [← hf] at he
      unfold foundFields at he
      rw [List.mem_filterMap] at he
      obtain ⟨ta, -, hta⟩ := he
      obtain ⟨col, hcol, hee⟩ := Option.map_eq_some'.mp hta
      have hmem := List.mem_of_find?_eq_some hcol
      rw [List.mem_range'] at hmem
      obtain ⟨j, hj, hcj⟩ := hmem
      have : e.2 = col := by rw [← hee]
      omega
    · intro c hc
      rw [← hi] at hc
      unfold imageColsAt at hc
      rw [List.mem_filter] at hc
      have hmem := hc.1
      rw [List.mem_range'] at hmem
      obtain ⟨j, hj, hcj⟩ := hmem
      omega

/-- Witness for C10: the blank worksheet resolves to absent, and for the
spec's single-row header example every resolved column is within the
160-column window. -/
theorem claim_c10_window_witness :
    (blankWindow wsBlank ∧ findHeaderPositions wsBlank = none) ∧
    (findHeaderPositions wsSingle =
        some (1, [(kKategori, 1), (kNamaProduk, 2), (kDeskripsi, 3)], []) ∧
      (∀ e ∈ [(kKategori, 1), (kNamaProduk, 2), (kDeskripsi, 3)], e.2 ≤ 160) ∧
      (∀ c ∈ ([] : List Nat), c ≤ 160)) := by
  have hb : blankWindow wsBlank := fun _ _ _ _ _ _ => rfl
  have hs : findHeaderPositions wsSingle =
      some (1, [(kKategori, 1), (kNamaProduk, 2), (kDeskripsi, 3)], []) := by
    decide
  exact ⟨⟨hb, (claim_c10_window wsBlank).1 hb⟩,
    hs, (claim_c10_window wsSingle).2 1 _ [] hs⟩

/-- Counterexample to claim C8 as stated: the resolver's `imageColumns` is in
ascending column order, not rank-sorted.  On a header whose column 1 is a
numbered slot (`Item Image 2`) and column 2 a cover slot (`Cover Image`), the
resolver returns `[1, 2]`, while the writer's rank order (`_img_rank`, cover
first) of those columns is `[2, 1]`. -/
theorem claim_c8_cex :
    findHeaderPositions exWsC8 =
        some (1, [(kKategori, 3), (kNamaProduk, 4)], [1, 2]) ∧
      imgColsRescan exWsC8 1 = [2, 1] ∧ ([1, 2] : List Nat) ≠ [2, 1] :=
  ⟨by decide, by decide, by decide⟩

/-- Claim C8 (amended): the resolver's `imageColumns` is sorted ascending by
column index (rank-sorting — cover first, numbered slots ascending, unranked
last — is applied only by the Template Writer's per-write rescan via
`_img_rank`); for the two-row header with row 1 `["Foto","Foto"]` and row 2
`["Sampul","Produk 1"]` (alongside resolvable category and product-name
columns), the resolver resolves exactly the two image-slot columns `[1, 2]`,
whose first element carries the cover label `foto sampul` and whose second
carries the numbered label `foto produk 1`. -/
theorem claim_c8_image_order :
    (∀ (ws : Ws) (r : Nat) (f : List (List Char × Nat)) (i : List Nat),
        findHeaderPositions ws = some (r, f, i) → List.Pairwise (· < ·) i) ∧
      findHeaderPositions exWsFoto =
        some (2, [(kKategori, 3), (kNamaProduk, 4)], [1, 2]) ∧
      colText exWsFoto 1 2 1 = "foto sampul".data ∧
      colText exWsFoto 1 2 2 = "foto produk 1".data := by
  refine ⟨?_, by decide, by decide, by decide⟩
  intro ws r f i hsome
  rw [findHeaderPositions_eq_scan] at hsome
  obtain ⟨p, hp, hmk⟩ := Option.map_eq_some'.mp hsome
  unfold mkHeaderResult at hmk
  have hi : imageColsAt ws p.1 p.2 = i := congrArg (fun t => t.2.2) hmk
  rw [← hi]
  unfold imageColsAt
  exact (List.pairwise_lt_range' 1 160).filter _

/-! Frame and cursor lemmas for the Template Writer. -/

theorem cells_setCell_ne {ws : Ws} {r c rr cc : Nat} {v : Val} (h : rr ≠ r) :
    (setCell ws r c v).cells rr cc = ws.cells rr cc := by
  unfold setCell
  dsimp only
  rw [if_neg]
  rintro ⟨rfl, -⟩
  exact h rfl

theorem cells_writeReqCell_ne {ws : Ws} {r rr cc : Nat} {cm : Colmap}
    {label : List Char} {v : Val} (h : rr ≠ r) :
    (writeReqCell ws r cm label v).cells rr cc = ws.cells rr cc :=
  cells_setCell_ne h

theorem cells_writeOptCell_ne {ws : Ws} {r rr cc : Nat} {cm : Colmap}
    {label : List Char} {v : Option Val} (h : rr ≠ r) :
    (writeOptCell ws r cm label v).cells rr cc = ws.cells rr cc := by
  unfold writeOptCell
  cases v with
  | none => cases colmapGet cm label <;> rfl
  | some v => cases colmapGet cm label with
    | none => rfl
    | some c => exact cells_setCell_ne h

theorem cells_writeImages_ne {r rr cc : Nat} (h : rr ≠ r) :
    ∀ (pairs : List (Nat × List Char)) (ws : Ws),
      (pairs.foldl (fun w cu => setCell w r cu.1 (.str cu.2)) ws).cells rr cc =
        ws.cells rr cc := by
  intro pairs
  induction pairs with
  | nil => intro ws; rfl
  | cons p rest ih =>
    intro ws
    rw [List.foldl_cons, ih, cells_setCell_ne h]

theorem cells_writeDims_ne {ws : Ws} {r rr cc : Nat} {cm : Colmap}
    {dims : Option (Int × Int × Int)} (h : rr ≠ r) :
    (writeDims ws r cm dims).cells rr cc = ws.cells rr cc := by
  unfold writeDims
  cases dims with
  | none => rfl
  | some d =>
    rw [cells_writeOptCell_ne h, cells_writeOptCell_ne h, cells_writeOptCell_ne h]

theorem cells_writeImagePart_ne {ws : Ws} {r rr cc : Nat} {cm : Colmap}
    {imgCols : List Nat} {urls : List (List Char)} (h : rr ≠ r) :
    (writeImagePart ws r cm imgCols urls).cells rr cc = ws.cells rr cc := by
  unfold writeImagePart
  split
  · cases colmapGet cm kFotoProduk with
    | none => rfl
    | some c => exact cells_setCell_ne h
  · exact cells_writeImages_ne h (imgCols.zip urls) ws

theorem cells_writeRecordCore_ne {ws : Ws} {r rr cc : Nat} {cm : Colmap}
    {imgCols : List Nat} {rec : Rec} (h : rr ≠ r) :
    (writeRecordCore ws r cm imgCols rec).cells rr cc = ws.cells rr cc := by
  unfold writeRecordCore
  rw [cells_writeImagePart_ne h, cells_writeDims_ne h,
    cells_writeOptCell_ne h, cells_writeOptCell_ne h, cells_writeOptCell_ne h,
    cells_writeOptCell_ne h, cells_writeReqCell_ne h, cells_writeReqCell_ne h,
    cells_writeReqCell_ne h]

theorem cells_ensureCol_ne {ws : Ws} {hdr rr cc : Nat} {cm : Colmap}
    {label : List Char} (h : rr ≠ hdr) :
    (ensureCol ws hdr cm label).1.cells rr cc = ws.cells rr cc := by
  unfold ensureCol
  cases colmapGet cm label with
  | none => exact cells_setCell_ne h
  | some c =>
    dsimp only
    split
    · rfl
    · exact cells_setCell_ne h

theorem cells_writeRecord_ne {ws : Ws} {hdr r rr cc : Nat} {cm : Colmap}
    {imgCols : List Nat} {rec : Rec} (h1 : rr ≠ r) (h2 : rr ≠ hdr) :
    (writeRecord ws hdr cm imgCols r rec).1.cells rr cc = ws.cells rr cc := by
  unfold writeRecord
  cases colmapGet cm kGaransi with
  | some c =>
    dsimp only
    rw [cells_setCell_ne h1, cells_writeRecordCore_ne h1]
  | none =>
    dsimp only
    rw [cells_setCell_ne h1, cells_ensureCol_ne h2, cells_writeRecordCore_ne h1]

theorem writeRows_nil {hdr : Nat} {imgCols : List Nat} {ws : Ws} {cm : Colmap}
    {r : Nat} : writeRows hdr imgCols ws cm r [] = (ws, cm, r) := rfl

theorem writeRows_cons {hdr : Nat} {imgCols : List Nat} {ws : Ws} {cm : Colmap}
    {r : Nat} {rec : Rec} {rest : List Rec} :
    writeRows hdr imgCols ws cm r (rec :: rest) =
      writeRows hdr imgCols (writeRecord ws hdr cm imgCols r rec).1
        (writeRecord ws hdr cm imgCols r rec).2 (r + 1) rest := rfl

theorem cells_writeRows_outside {hdr rr cc : Nat} {imgCols : List Nat}
    (h2 : rr ≠ hdr) :
    ∀ (rows : List Rec) (ws : Ws) (cm : Colmap) (r : Nat),
      (rr < r ∨ r + rows.length ≤ rr) →
      (writeRows hdr imgCols ws cm r rows).1.cells rr cc = ws.cells rr cc := by
  intro rows
  induction rows with
  | nil => intro ws cm r _; rw [writeRows_nil]
  | cons rec rest ih =>
    intro ws cm r hout
    have h1 : rr ≠ r := by
      rcases hout with h | h
      · omega
      · simp only [List.length_cons] at h; omega
    have hout' : rr < r + 1 ∨ (r + 1) + rest.length ≤ rr := by
      rcases hout with h | h
      · left; omega
      · right; simp only [List.length_cons] at h; omega
    rw [writeRows_cons, ih _ _ (r + 1) hout', cells_writeRecord_ne h1 h2]

theorem writeRows_counter {hdr : Nat} {imgCols : List Nat} :
    ∀ (rows : List Rec) (ws : Ws) (cm : Colmap) (r : Nat),
      (writeRows hdr imgCols ws cm r rows).2.2 = r + rows.length := by
  intro rows
  induction rows with
  | nil => intro ws cm r; rw [writeRows_nil]; rfl
  | cons rec rest ih =>
    intro ws cm r
    rw [writeRows_cons, ih]
    simp only [List.length_cons]
    omega

theorem ensureFoldStep {hdr : Nat} (labels : List (List Char))
    (a : List Char) (s : Ws × Colmap) :
    (a :: labels).foldl (fun s l => ensureCol s.1 hdr s.2 l) s =
      labels.foldl (fun s l => ensureCol s.1 hdr s.2 l)
        (ensureCol s.1 hdr s.2 a) := rfl

theorem cells_ensureFold_ne {hdr rr cc : Nat} (h : rr ≠ hdr) :
    ∀ (labels : List (List Char)) (s : Ws × Colmap),
      ((labels.foldl (fun s l => ensureCol s.1 hdr s.2 l) s).1).cells rr cc =
        s.1.cells rr cc := by
  intro labels
  induction labels with
  | nil => intro s; rfl
  | cons a rest ih =>
    intro s
    rw [ensureFoldStep, ih, cells_ensureCol_ne h]

theorem cells_ensureAllCols_ne {ws : Ws} {hdr rr cc : Nat} {cm : Colmap}
    (h : rr ≠ hdr) :
    (ensureAllCols ws hdr cm).1.cells rr cc = ws.cells rr cc := by
  unfold ensureAllCols
  exact cells_ensureFold_ne h ensuredLabels (ws, cm)

theorem wsBounded_setCell {ws : Ws} {r c : Nat} {v : Val} (hb : wsBounded ws) :
    wsBounded (setCell ws r c v) := by
  intro r2 c2 h2
  unfold setCell at h2 ⊢
  dsimp only at h2 ⊢
  rw [if_neg, hb]
  · rcases h2 with h2 | h2
    · left; omega
    · right; omega
  · rintro ⟨rfl, rfl⟩
    rcases h2 with h2 | h2 <;> omega

theorem wsBounded_ensureCol {ws : Ws} {hdr : Nat} {cm : Colmap}
    {label : List Char} (hb : wsBounded ws) :
    wsBounded (ensureCol ws hdr cm label).1 := by
  unfold ensureCol
  cases colmapGet cm label with
  | none => exact wsBounded_setCell hb
  | some c =>
    dsimp only
    split
    · exact hb
    · exact wsBounded_setCell hb

theorem wsBounded_ensureFold {hdr : Nat} :
    ∀ (labels : List (List Char)) (s : Ws × Colmap), wsBounded s.1 →
      wsBounded (labels.foldl (fun s l => ensureCol s.1 hdr s.2 l) s).1 := by
  intro labels
  induction labels with
  | nil => intro s hb; exact hb
  | cons a rest ih =>
    intro s hb
    rw [ensureFoldStep]
    exact ih (ensureCol s.1 hdr s.2 a) (wsBounded_ensureCol hb)

theorem wsBounded_ensureAllCols {ws : Ws} {hdr : Nat} {cm : Colmap}
    (hb : wsBounded ws) : wsBounded (ensureAllCols ws hdr cm).1 := by
  unfold ensureAllCols
  exact wsBounded_ensureFold ensuredLabels (ws, cm) hb

theorem rowHasData_of_bounded {ws : Ws} (hb : wsBounded ws) {r : Nat}
    (h : ws.maxRow < r) : rowHasData ws r = false := by
  unfold rowHasData
  rw [List.any_eq_false]
  intro c _
  rw [hb r c (Or.inl h)]
  simp [trimWs, pyStrOr]

theorem firstBlankFrom_spec (ws : Ws) :
    ∀ (fuel r : Nat), (∃ k, k ≤ fuel ∧ rowHasData ws (r + k) = false) →
      rowHasData ws (firstBlankFrom ws r fuel) = false ∧
      r ≤ firstBlankFrom ws r fuel ∧
      ∀ rr, r ≤ rr → rr < firstBlankFrom ws r fuel → rowHasData ws rr = true := by
  intro fuel
  induction fuel with
  | zero =>
    intro r ⟨k, hk, hblank⟩
    have hk0 : k = 0 := by omega
    subst hk0
    refine ⟨by simpa using hblank, Nat.le_refl r, ?_⟩
    intro rr h1 h2
    exact absurd (Nat.lt_of_le_of_lt h1 h2) (Nat.lt_irrefl r)
  | succ fuel ih =>
    intro r ⟨k, hk, hblank⟩
    cases hD : rowHasData ws r with
    | false =>
      have heq : firstBlankFrom ws r (fuel + 1) = r := by
        simp [firstBlankFrom, hD]
      rw [heq]
      refine ⟨hD, Nat.le_refl r, ?_⟩
      intro rr h1 h2
      exact absurd (Nat.lt_of_le_of_lt h1 h2) (Nat.lt_irrefl r)
    | true =>
      have heq : firstBlankFrom ws r (fuel + 1) = firstBlankFrom ws (r + 1) fuel := by
        simp [firstBlankFrom, hD]
      rw [heq]
      have hk0 : k ≠ 0 := by
        rintro rfl
        rw [Nat.add_zero, hD] at hblank
        exact absurd hblank (by decide)
      have hex : ∃ k2, k2 ≤ fuel ∧ rowHasData ws (r + 1 + k2) = false := by
        refine ⟨k - 1, by omega, ?_⟩
        have harith : r + 1 + (k - 1) = r + k := by omega
        rw [harith]
        exact hblank
      obtain ⟨hb2, hle2, hall2⟩ := ih (r + 1) hex
      refine ⟨hb2, by omega, ?_⟩
      intro rr h1 h2
      rcases Nat.eq_or_lt_of_le h1 with rfl | h1'
      · exact hD
      · exact hall2 rr h1' h2

theorem cursorRow_spec {ws : Ws} (hb : wsBounded ws) (hdr : Nat) :
    rowHasData ws (cursorRow ws hdr) = false ∧
    hdr + 1 ≤ cursorRow ws hdr ∧
    ∀ rr, hdr + 1 ≤ rr → rr < cursorRow ws hdr → rowHasData ws rr = true := by
  have hex : ∃ k, k ≤ ws.maxRow + 1 ∧
      rowHasData ws (hdr + 1 + k) = false := by
    refine ⟨ws.maxRow + 1 - (hdr + 1), by omega, ?_⟩
    exact rowHasData_of_bounded hb (by omega)
  exact firstBlankFrom_spec ws (ws.maxRow + 1) (hdr + 1) hex

theorem colmapGet_colmapSet_self (cm : Colmap) (k : List Char) (v : Nat) :
    colmapGet (colmapSet cm k v) k = some v := by
  induction cm with
  | nil => simp [colmapSet, colmapGet, List.find?]
  | cons e rest ih =>
    by_cases h : e.1 = k
    · simp [colmapSet, colmapGet, List.find?, h]
    · have hb : (e.1 == k) = false := by simp [h]
      simp only [colmapSet, hb]
      simp only [colmapGet, List.find?, hb] at ih ⊢
      exact ih

theorem colmapGet_colmapSet_isSome (cm : Colmap) (k k2 : List Char) (v : Nat)
    (h : (colmapGet cm k2).isSome) :
    (colmapGet (colmapSet cm k v) k2).isSome := by
  induction cm with
  | nil => simp [colmapGet, List.find?] at h
  | cons e rest ih =>
    by_cases hek : e.1 = k
    · by_cases hk2 : k = k2
      · subst hk2
        rw [colmapGet_colmapSet_self]
        rfl
      · have hb : (e.1 == k) = true := by simp [hek]
        simp only [colmapSet, hb]
        have he2 : (e.1 == k2) = false := by simp [hek]; exact hk2
        have hkk2 : ((k, v).1 == k2) = false := by simp; exact hk2
        simp only [colmapGet, List.find?, he2] at h
        simp only [colmapGet, List.find?, hkk2]
        exact h
    · have hb : (e.1 == k) = false := by simp [hek]
      simp only [colmapSet, hb]
      by_cases he2 : e.1 = k2
      · have hb2 : (e.1 == k2) = true := by simp [he2]
        simp only [colmapGet, List.find?, hb2]
        rfl
      · have hb2 : (e.1 == k2) = false := by simp [he2]
        simp only [colmapGet, List.find?, hb2] at h ⊢
        exact ih h

theorem ensureCol_get_self (ws : Ws) (hdr : Nat) (cm : Colmap)
    (label : List Char) :
    ((colmapGet (ensureCol ws hdr cm label).2 label)).isSome := by
  unfold ensureCol
  cases hg : colmapGet cm label with
  | none =>
    dsimp only
    rw [colmapGet_colmapSet_self]
    rfl
  | some c =>
    dsimp only
    split
    · rw [hg]; rfl
    · rw [colmapGet_colmapSet_self]; rfl

theorem ensureCol_get_isSome (ws : Ws) (hdr : Nat) (cm : Colmap)
    (label k : List Char) (h : (colmapGet cm k).isSome) :
    ((colmapGet (ensureCol ws hdr cm label).2 k)).isSome := by
  unfold ensureCol
  cases hg : colmapGet cm label with
  | none =>
    dsimp only
    exact colmapGet_colmapSet_isSome cm label k _ h
  | some c =>
    dsimp only
    split
    · exact h
    · exact colmapGet_colmapSet_isSome cm label k _ h

theorem ensureFold_get {hdr : Nat} (k : List Char) :
    ∀ (labels : List (List Char)) (s : Ws × Colmap),
      (k ∈ labels ∨ (colmapGet s.2 k).isSome) →
      ((colmapGet
        (labels.foldl (fun s l => ensureCol s.1 hdr s.2 l) s).2 k)).isSome := by
  intro labels
  induction labels with
  | nil =>
    intro s h
    rcases h with h | h
    · exact absurd h (List.not_mem_nil k)
    · exact h
  | cons a rest ih =>
    intro s h
    rw [ensureFoldStep]
    apply ih
    rcases h with h | h
    · rcases List.mem_cons.mp h with rfl | h2
      · right
        exact ensureCol_get_self s.1 hdr s.2 k
      · left; exact h2
    · right
      exact ensureCol_get_isSome s.1 hdr s.2 a k h

theorem ensureAllCols_garansi (ws : Ws) (hdr : Nat) (cm : Colmap) :
    ((colmapGet (ensureAllCols ws hdr cm).2 kGaransi)).isSome := by
  unfold ensureAllCols
  apply ensureFold_get kGaransi ensuredLabels (ws, cm)
  left
  simp [ensuredLabels]

theorem cells_setCell_self (ws : Ws) (r c : Nat) (v : Val) :
    (setCell ws r c v).cells r c = some v := by
  simp [setCell]

theorem writeRecord_cm_of_garansi {ws : Ws} {hdr : Nat} {cm : Colmap}
    {imgCols : List Nat} {r : Nat} {rec : Rec} {g : Nat}
    (hg : colmapGet cm kGaransi = some g) :
    (writeRecord ws hdr cm imgCols r rec).2 = cm := by
  unfold writeRecord
  rw [hg]

theorem writeRecord_warranty_cell {ws : Ws} {hdr : Nat} {cm : Colmap}
    {imgCols : List Nat} {r : Nat} {rec : Rec} {g : Nat}
    (hg : colmapGet cm kGaransi = some g) :
    (writeRecord ws hdr cm imgCols r rec).1.cells r g =
      some (.str (warrantyText rec.warranty)) := by
  unfold writeRecord
  rw [hg]
  exact cells_setCell_self _ r g _

theorem writeRows_fills {hdr : Nat} {imgCols : List Nat} {g : Nat} :
    ∀ (rows : List Rec) (ws : Ws) (cm : Colmap) (r : Nat), hdr < r →
      colmapGet cm kGaransi = some g →
      ∀ (k : Nat) (hk : k < rows.length),
        (writeRows hdr imgCols ws cm r rows).1.cells (r + k) g =
          some (.str (warrantyText (rows.get ⟨k, hk⟩).warranty)) := by
  intro rows
  induction rows with
  | nil =>
    intro ws cm r _ _ k hk
    exact absurd hk (by simp)
  | cons rec rest ih =>
    intro ws cm r hr hg k hk
    rw [writeRows_cons]
    cases k with
    | zero =>
      simp only [Nat.add_zero]
      have hfr : (writeRows hdr imgCols (writeRecord ws hdr cm imgCols r rec).1
          (writeRecord ws hdr cm imgCols r rec).2 (r + 1) rest).1.cells r g =
          (writeRecord ws hdr cm imgCols r rec).1.cells r g :=
        cells_writeRows_outside (by omega) rest _ _ (r + 1) (Or.inl (by omega))
      rw [hfr, writeRecord_warranty_cell hg]
      rfl
    | succ j =>
      have hj : j < rest.length := by
        simp only [List.length_cons] at hk
        omega
      have harith : r + (j + 1) = (r + 1) + j := by omega
      rw [harith, writeRecord_cm_of_garansi hg,
        ih (writeRecord ws hdr cm imgCols r rec).1 cm (r + 1) (by omega) hg j hj]
      rfl

/-- Claim C2: for every write call, the insertion cursor is the first row
below the header in which every column of the currently-known column range is
blank (first two conjuncts); writing the records touches, outside the header
row, no cell of any row below the header and above the cursor nor of any row
at or beyond `cursor + n` (third conjunct — in particular no pre-existing
data row between header and cursor is modified, and each record's writes land
in its own row of `cursor..cursor+n-1`, so appending records never overwrites
previously written rows); the cursor advances by exactly one row per record
(fourth conjunct); and each row `cursor + k` is actually filled by record `k`
— its warranty cell holds that record's warranty text (fifth conjunct). -/
theorem claim_c2_writer_frame (ws0 : Ws) (hdr : Nat) (cm0 : Colmap)
    (rows : List Rec) (hb : wsBounded ws0) :
    rowHasData (ensureAllCols ws0 hdr cm0).1
        (cursorRow (ensureAllCols ws0 hdr cm0).1 hdr) = false ∧
    (∀ rr, hdr + 1 ≤ rr → rr < cursorRow (ensureAllCols ws0 hdr cm0).1 hdr →
      rowHasData (ensureAllCols ws0 hdr cm0).1 rr = true) ∧
    (∀ rr cc, rr ≠ hdr →
      (rr < cursorRow (ensureAllCols ws0 hdr cm0).1 hdr ∨
        cursorRow (ensureAllCols ws0 hdr cm0).1 hdr + rows.length ≤ rr) →
      (writePhase ws0 hdr cm0 rows).1.cells rr cc = ws0.cells rr cc) ∧
    (writePhase ws0 hdr cm0 rows).2.2 =
      cursorRow (ensureAllCols ws0 hdr cm0).1 hdr + rows.length ∧
    ∃ g, colmapGet (ensureAllCols ws0 hdr cm0).2 kGaransi = some g ∧
      ∀ (k : Nat) (hk : k < rows.length),
        (writePhase ws0 hdr cm0 rows).1.cells
            (cursorRow (ensureAllCols ws0 hdr cm0).1 hdr + k) g =
          some (.str (warrantyText (rows.get ⟨k, hk⟩).warranty)) := by
  have hb1 : wsBounded (ensureAllCols ws0 hdr cm0).1 := wsBounded_ensureAllCols hb
  obtain ⟨hcur, hge, hmin⟩ := cursorRow_spec hb1 hdr
  refine ⟨hcur, hmin, ?_, ?_, ?_⟩
  · intro rr cc h2 hout
    unfold writePhase
    rw [cells_writeRows_outside h2 rows _ _ _ hout, cells_ensureAllCols_ne h2]
  · exact writeRows_counter rows _ _ _
  · obtain ⟨g, hg⟩ := Option.isSome_iff_exists.mp (ensureAllCols_garansi ws0 hdr cm0)
    refine ⟨g, hg, ?_⟩
    intro k hk
    unfold writePhase
    exact writeRows_fills rows _ _ _ (by omega) hg k hk

/-- Witness for C2: the theorem applied to the empty worksheet with one
record. -/
theorem claim_c2_writer_frame_witness :
    wsBounded wsBlank ∧
    (rowHasData (ensureAllCols wsBlank 1 []).1
        (cursorRow (ensureAllCols wsBlank 1 []).1 1) = false ∧
    (∀ rr, 1 + 1 ≤ rr → rr < cursorRow (ensureAllCols wsBlank 1 []).1 1 →
      rowHasData (ensureAllCols wsBlank 1 []).1 rr = true) ∧
    (∀ rr cc, rr ≠ 1 →
      (rr < cursorRow (ensureAllCols wsBlank 1 []).1 1 ∨
        cursorRow (ensureAllCols wsBlank 1 []).1 1 + [recBlank].length ≤ rr) →
      (writePhase wsBlank 1 [] [recBlank]).1.cells rr cc = wsBlank.cells rr cc) ∧
    (writePhase wsBlank 1 [] [recBlank]).2.2 =
      cursorRow (ensureAllCols wsBlank 1 []).1 1 + [recBlank].length ∧
    ∃ g, colmapGet (ensureAllCols wsBlank 1 []).2 kGaransi = some g ∧
      ∀ (k : Nat) (hk : k < [recBlank].length),
        (writePhase wsBlank 1 [] [recBlank]).1.cells
            (cursorRow (ensureAllCols wsBlank 1 []).1 1 + k) g =
          some (.str (warrantyText ([recBlank].get ⟨k, hk⟩).warranty))) := by
  have hb : wsBounded wsBlank := fun _ _ _ => rfl
  exact ⟨hb, claim_c2_writer_frame wsBlank 1 [] [recBlank] hb⟩

/-- Counterexample to claim C3 as stated: when the ladder is exhausted the
function does not return the lowest-quality ladder encoding (quality 64); it
re-encodes at quality 60, which is below the ladder.  For an image whose
encoding at quality `q` has `2000001 + q` bytes, every ladder quality
overflows the budget and the result is the quality-60 encoding
(2000061 bytes), not the quality-64 one (2000065 bytes). -/
theorem claim_c3_cex :
    shopeeSafeJpgBytes encBigN id maxShopeeImgBytes = encBigN 60 ∧
      encBigN 60 ≠ encBigN 64 := by
  decide

/-- Claim C3 (amended): `_shopee_safe_jpg_bytes` re-encodes at the qualities
of the fixed descending ladder 92..64 in order and returns the first encoding
whose size is at most 2,000,000 bytes (so whenever some ladder quality fits
the budget, the returned bytes are within it); when the ladder is exhausted
it returns a fresh encoding at quality 60 — below the ladder — regardless of
its size. -/
theorem claim_c3_ladder {β : Type} (encode : Nat → β) (size : β → Nat) :
    (∀ q, qualityLadder.find?
        (fun q2 => decide (size (encode q2) ≤ maxShopeeImgBytes)) = some q →
      shopeeSafeJpgBytes encode size maxShopeeImgBytes = encode q ∧
      size (encode q) ≤ maxShopeeImgBytes ∧ q ∈ qualityLadder) ∧
    ((∀ q ∈ qualityLadder, maxShopeeImgBytes < size (encode q)) →
      shopeeSafeJpgBytes encode size maxShopeeImgBytes = encode 60) := by
  constructor
  · intro q hq
    refine ⟨?_, ?_, List.mem_of_find?_eq_some hq⟩
    · unfold shopeeSafeJpgBytes
      rw [hq]
    · have := List.find?_some hq
      exact of_decide_eq_true this
  · intro hbig
    have hf : qualityLadder.find?
        (fun q => decide (size (encode q) ≤ maxShopeeImgBytes)) = none := by
      rw [List.find?_eq_none]
      intro q hq
      simp only [decide_eq_true_eq]
      have := hbig q hq
      omega
    unfold shopeeSafeJpgBytes
    rw [hf]

/-- Witness for C3 (amended): a small image returns its first (quality-92)
encoding within budget; an oversized image falls through to the quality-60
re-encode. -/
theorem claim_c3_ladder_witness :
    (shopeeSafeJpgBytes encSmallN id maxShopeeImgBytes = encSmallN 92 ∧
      id (encSmallN 92) ≤ maxShopeeImgBytes ∧ 92 ∈ qualityLadder) ∧
    shopeeSafeJpgBytes encBigN id maxShopeeImgBytes = encBigN 60 := by
  have hbig : ∀ q ∈ qualityLadder, maxShopeeImgBytes < id (encBigN q) := by
    intro q _
    simp only [encBigN, maxShopeeImgBytes, id]
    omega
  exact ⟨(claim_c3_ladder encSmallN id).1 92 (by decide),
    (claim_c3_ladder encBigN id).2 hbig⟩

/-- Claim C4 is refuted by the code (code bug): `shopee_safe_image_url` is
not idempotent.  On `http://a/b?/format/format,webp,webp` the single-pass
regex removal glues the surviving text into a fresh `/format,webp` directive,
so the first result still carries the directive the function exists to strip,
and a second application removes it and returns a different URL. -/
theorem claim_c4_not_idempotent :
    shopeeSafeImageUrl "http://a/b?/format/format,webp,webp".data =
      some "http://a/b?/format,webp".data ∧
    shopeeSafeImageUrl "http://a/b?/format,webp".data =
      some "http://a/b".data ∧
    "http://a/b?/format,webp".data ≠ "http://a/b".data ∧
    "/format,webp".data <:+: "http://a/b?/format,webp".data := by
  decide

/-- Counterexample to claim C5 as stated: URL stripping can expose a line
matching a boilerplate pattern, and absolute URLs that `URL_RE` does not
match survive.  On `www.x.com Source: xhttp://evil.zz` the output is
`Source: xhttp://evil.zz`, which matches the `^\s*source\s*:` removal pattern
and contains the absolute URL `http://evil.zz`. -/
theorem claim_c5_cex :
    cleanDescText descCex = "Source: xhttp://evil.zz".data ∧
    ((cleanDescText descCex).splitOn '\n').any removePatternMatch = true ∧
    "http://".data <:+: cleanDescText descCex := by
  decide

/-- Claim C5 (amended): the line-filtering stage of `_clean_desc_text` drops
exactly the boilerplate-matching lines — no kept line matches any removal
pattern — and the output is the URL-regex-stripped join of the kept lines;
boilerplate-matching lines or absolute URLs can reappear in the output only
through the removal of URL spans (which may expose a matching suffix) or
through URLs the stripping regex does not match. -/
theorem claim_c5_kept_lines (desc : List Char) :
    (∀ ln ∈ cleanKeptLines desc, removePatternMatch ln = false) ∧
    cleanDescText desc =
      (if desc.isEmpty then [] else
        stripUrls (List.intercalate ['\n'] (cleanKeptLines desc))) := by
  constructor
  · intro ln hln
    unfold cleanKeptLines at hln
    cases he : desc.isEmpty with
    | true =>
      rw [he] at hln
      simp at hln
    | false =>
      rw [he] at hln
      simp only [if_neg Bool.false_ne_true] at hln
      have := (List.mem_filter.mp hln).2
      simpa using this
  · rfl

/-- Witness for C5 (amended): the kept line of the counterexample input
matches no removal pattern. -/
theorem claim_c5_kept_lines_witness :
    ("www.x.com Source: xhttp://evil.zz".data ∈ cleanKeptLines descCex) ∧
    removePatternMatch "www.x.com Source: xhttp://evil.zz".data = false ∧
    cleanDescText descCex =
      (if descCex.isEmpty then [] else
        stripUrls (List.intercalate ['\n'] (cleanKeptLines descCex))) := by
  have hmem : "www.x.com Source: xhttp://evil.zz".data ∈ cleanKeptLines descCex := by
    decide
  exact ⟨hmem, (claim_c5_kept_lines descCex).1 _ hmem,
    (claim_c5_kept_lines descCex).2⟩

/-- Claim C9: every record the driver passes to the writer carries no
warranty value (the row dict has no `warranty` key), the built row does not
depend on the configured `--warranty` option, and the writer therefore
writes the literal `No Warranty` into the record's warranty cell. -/
theorem claim_c9_warranty (cfg : Config) (w2 : List Char) (li : Listing)
    (i : Nat) (rec : Rec) (h : mkRow cfg li i = some (some rec)) :
    rec.warranty = none ∧
    mkRow { cfg with warranty := w2 } li i = some (some rec) ∧
    ∀ (ws : Ws) (hdr : Nat) (cm : Colmap) (imgCols : List Nat) (r : Nat),
      ∃ c, colmapGet (writeRecord ws hdr cm imgCols r rec).2 kGaransi = some c ∧
        (writeRecord ws hdr cm imgCols r rec).1.cells r c =
          some (.str "No Warranty".data) := by
  unfold mkRow at h
  cases hup : urlsPublic li.image_urls with
  | none =>
    rw [hup] at h
    simp at h
  | some ups =>
    rw [hup] at h
    dsimp only at h
    cases he : ups.isEmpty with
    | true =>
      rw [he] at h
      simp at h
    | false =>
      rw [he] at h
      simp only [if_neg Bool.false_ne_true, Option.some.injEq] at h
      subst h
      refine ⟨rfl, ?_, ?_⟩
      · unfold mkRow
        rw [hup]
        dsimp only
        rw [he]
        simp only [if_neg Bool.false_ne_true]
      · intro ws hdr cm imgCols r
        cases hg : colmapGet cm kGaransi with
        | some g =>
          refine ⟨g, ?_, ?_⟩
          · rw [writeRecord_cm_of_garansi hg]
            exact hg
          · rw [writeRecord_warranty_cell hg]
            rfl
        | none =>
          unfold writeRecord
          rw [hg]
          dsimp only
          obtain ⟨c, hc⟩ := Option.isSome_iff_exists.mp
            (ensureCol_get_self _ hdr cm kGaransi)
          refine ⟨c, hc, ?_⟩
          rw [hc]
          simp only [Option.getD_some]
          rw [cells_setCell_self]
          rfl

/-- Witness for C9: the concrete listing `liC9` under `cfgC9`. -/
theorem claim_c9_warranty_witness :
    mkRow cfgC9 liC9 1 = some (some recC9) ∧ recC9.warranty = none ∧
    mkRow { cfgC9 with warranty := "whatever".data } liC9 1 =
      some (some recC9) ∧
    ∃ c, colmapGet (writeRecord wsBlank 1 [] [] 2 recC9).2 kGaransi = some c ∧
      (writeRecord wsBlank 1 [] [] 2 recC9).1.cells 2 c =
        some (.str "No Warranty".data) := by
  have h : mkRow cfgC9 liC9 1 = some (some recC9) := by rfl
  obtain ⟨h1, h2, h3⟩ := claim_c9_warranty cfgC9 "whatever".data liC9 1 recC9 h
  exact ⟨h, h1, h2, h3 wsBlank 1 [] [] 2⟩

theorem scrapeAux_cons {α : Type} (w : World α) (proxy headless : Bool)
    (e : Engine) (rest : List Engine) (results : List α) :
    scrapeAux w proxy headless (e :: rest) results =
      (match passBody (w e headless) headless proxy results with
       | (res2, .cont) => scrapeAux w proxy headless rest res2
       | (res2, .brk) => .inl res2
       | (_, .recurse) => .inr ()) := rfl

theorem scrapeAux_inr {α : Type} (w : World α) {proxy headless : Bool} :
    ∀ (es : List Engine) (res : List α),
      scrapeAux w proxy headless es res = .inr () →
      headless = true ∧ proxy = false := by
  intro es
  induction es with
  | nil =>
    intro res h
    exact absurd h (by simp [scrapeAux])
  | cons e rest ih =>
    intro res h
    rw [scrapeAux_cons] at h
    revert h
    unfold passBody
    by_cases hpre : (w e headless).pre = true
    · rw [if_pos hpre]
      dsimp only
      exact fun h => ih res h
    · rw [if_neg hpre]
      by_cases hcf : (w e headless).cf = true ∧ headless = true ∧ ¬proxy = true
      · rw [if_pos hcf]
        by_cases hce : (w e headless).closeErrCf = true
        · rw [if_pos hce]
          dsimp only
          exact fun h => ih res h
        · rw [if_neg hce]
          dsimp only
          intro _
          exact ⟨hcf.2.1, by simpa using hcf.2.2⟩
      · rw [if_neg hcf]
        cases hcol : (w e headless).collect with
        | err got =>
          dsimp only
          exact fun h => ih _ h
        | ok ls =>
          dsimp only
          by_cases hclose : (w e headless).closeErr = true
          · rw [if_pos hclose]
            dsimp only
            exact fun h => ih _ h
          · rw [if_neg hclose]
            cases hem : (res ++ ls).isEmpty with
            | true =>
              rw [if_pos rfl]
              dsimp only
              exact fun h => ih _ h
            | false =>
              rw [if_neg (by decide)]
              dsimp only
              intro h
              exact absurd h (by simp)

theorem scrapeAux_fail {α : Type} {w : World α} {proxy headless : Bool}
    (hfail : ∀ e hb, (w e hb).pre = true ∨ (w e hb).collect = CollectOut.err []) :
    ∀ (es : List Engine) (res : List α),
      scrapeAux w proxy headless es res = .inl res ∨
      scrapeAux w proxy headless es res = .inr () := by
  intro es
  induction es with
  | nil => intro res; left; rfl
  | cons e rest ih =>
    intro res
    rw [scrapeAux_cons]
    unfold passBody
    by_cases hpre : (w e headless).pre = true
    · rw [if_pos hpre]
      dsimp only
      exact ih res
    · have hcol : (w e headless).collect = CollectOut.err [] :=
        (hfail e headless).resolve_left hpre
      by_cases hcf : (w e headless).cf = true ∧ headless = true ∧ ¬proxy = true
      · rw [if_neg hpre, if_pos hcf]
        by_cases hce : (w e headless).closeErrCf = true
        · rw [if_pos hce]
          dsimp only
          exact ih res
        · rw [if_neg hce]
          dsimp only
          right
          rfl
      · rw [if_neg hpre, if_neg hcf, hcol]
        dsimp only
        rw [List.append_nil]
        exact ih res

/-- Counterexample to claim C6 as stated: a backend whose pass raises still
contributes the listings it appended before the exception.  In `wC6` the
first backend appends listing `1` and then raises; `scrape` returns `[1]`. -/
theorem claim_c6_cex :
    (wC6 Engine.chromium false).collect = CollectOut.err [1] ∧
    scrape wC6 false false = [1] := by
  decide

/-- Claim C6 (amended): any exception raised during a backend's pass is
caught and the loop proceeds to the next backend, but the listings the
failing backend appended to the shared accumulator before raising are
retained (see the counterexample); `scrape` never throws — it is a total
function of the backend behaviours — and returns the empty sequence when
every backend fails before appending anything. -/
theorem claim_c6_caught (α : Type) (w : World α) (proxy headless : Bool)
    (hfail : ∀ e hb, (w e hb).pre = true ∨ (w e hb).collect = CollectOut.err []) :
    scrape w proxy headless = [] := by
  unfold scrape
  rcases scrapeAux_fail hfail engines ([] : List α) with h | h
  · rw [h]
  · rw [h]
    dsimp only
    by_cases hh : headless = true
    · rw [if_pos hh]
      unfold scrapeFalse
      rcases @scrapeAux_fail α w proxy false hfail engines ([] : List α)
        with h2 | h2
      · rw [h2]
      · obtain ⟨hfa, -⟩ := scrapeAux_inr w engines [] h2
        exact absurd hfa (by decide)
    · rw [if_neg hh]

/-- Witness for C6 (amended): a world where every backend raises before
collecting anything. -/
theorem claim_c6_caught_witness :
    (∀ e hb, (wFail e hb).pre = true ∨ (wFail e hb).collect = CollectOut.err []) ∧
    scrape wFail false true = [] := by
  have hf : ∀ e hb,
      (wFail e hb).pre = true ∨ (wFail e hb).collect = CollectOut.err [] :=
    fun _ _ => Or.inl rfl
  exact ⟨hf, claim_c6_caught Nat wFail false true hf⟩

/-- Claim C7: the headless-to-non-headless retry is taken at most once — the
retry branch is reachable only when the call is headless with no proxy
(first conjunct), and fuel 2 always suffices for the recursion, i.e. the
depth never exceeds two (second conjunct); an invocation with a proxy
configured, or with headless disabled, never recurses — fuel 1 already
suffices (third and fourth conjuncts).  The retry itself runs with headless
disabled by the definition of `scrapeFuel`/`scrape`. -/
theorem claim_c7_single_retry (α : Type) (w : World α) (proxy headless : Bool) :
    (scrapeAux w proxy headless engines [] = .inr () →
      headless = true ∧ proxy = false) ∧
    scrapeFuel w proxy 2 headless = some (scrape w proxy headless) ∧
    (proxy = true → scrapeFuel w proxy 1 headless = some (scrape w proxy headless)) ∧
    (headless = false →
      scrapeFuel w proxy 1 headless = some (scrape w proxy headless)) := by
  refine ⟨fun h => scrapeAux_inr w engines [] h, ?_, ?_, ?_⟩
  · show (match scrapeAux w proxy headless engines ([] : List α) with
      | .inl r => some r
      | .inr _ => scrapeFuel w proxy 1 false) = some (scrape w proxy headless)
    unfold scrape
    cases h1 : scrapeAux w proxy headless engines ([] : List α) with
    | inl r => rfl
    | inr u =>
      obtain ⟨hh, -⟩ := scrapeAux_inr w engines [] h1
      subst hh
      dsimp only
      rw [if_pos rfl]
      show (match scrapeAux w proxy false engines ([] : List α) with
        | .inl r => some r
        | .inr _ => (none : Option (List α))) = some (scrapeFalse w proxy)
      unfold scrapeFalse
      cases h2 : scrapeAux w proxy false engines ([] : List α) with
      | inl r => rfl
      | inr u2 =>
        obtain ⟨hfa, -⟩ := scrapeAux_inr w engines [] h2
        exact absurd hfa (by decide)
  · intro hp
    subst hp
    show (match scrapeAux w true headless engines ([] : List α) with
      | .inl r => some r
      | .inr _ => (none : Option (List α))) = some (scrape w true headless)
    unfold scrape
    cases h1 : scrapeAux w true headless engines ([] : List α) with
    | inl r => rfl
    | inr u =>
      obtain ⟨-, hpf⟩ := scrapeAux_inr w engines [] h1
      exact absurd hpf (by decide)
  · intro hh
    subst hh
    show (match scrapeAux w proxy false engines ([] : List α) with
      | .inl r => some r
      | .inr _ => (none : Option (List α))) = some (scrape w proxy false)
    unfold scrape
    cases h1 : scrapeAux w proxy false engines ([] : List α) with
    | inl r => rfl
    | inr u =>
      obtain ⟨hfa, -⟩ := scrapeAux_inr w engines [] h1
      exact absurd hfa (by decide)

/-- Witness for C7: a challenge-detecting world; the headless no-proxy call
requests the retry, and the proxied / non-headless calls are already
resolved at fuel 1. -/
theorem claim_c7_single_retry_witness :
    (scrapeAux wCF false true engines ([] : List Nat) = .inr () →
      true = true ∧ false = false) ∧
    scrapeFuel wCF false 2 true = some (scrape wCF false true) ∧
    scrapeFuel wCF true 1 true = some (scrape wCF true true) ∧
    scrapeFuel wCF false 1 false = some (scrape wCF false false) := by
  refine ⟨(claim_c7_single_retry Nat wCF false true).1,
    (claim_c7_single_retry Nat wCF false true).2.1,
    (claim_c7_single_retry Nat wCF true true).2.2.1 rfl,
    (claim_c7_single_retry Nat wCF false false).2.2.2 rfl⟩

/-- Witness for C8 (amended): the universally quantified part applied to the
two-row example itself. -/
theorem claim_c8_image_order_witness :
    findHeaderPositions exWsFoto =
        some (2, [(kKategori, 3), (kNamaProduk, 4)], [1, 2]) ∧
      List.Pairwise (· < ·) [1, 2] := by
  have hs : findHeaderPositions exWsFoto =
      some (2, [(kKategori, 3), (kNamaProduk, 4)], [1, 2]) := by decide
  exact ⟨hs, claim_c8_image_order.1 exWsFoto 2 _ [1, 2] hs⟩

end MW
